import Mathlib

/-!
Verification of the identity-derivation and database core of the uuidManager
add-on (`src/scripts/main.js`).  The JavaScript functions are shallowly
embedded as executable Lean definitions: machine bytes become `Nat` values
below 256, Java byte arrays become `List Nat`, JavaScript strings become
`String`, fallible operations return `Option`, and the in-memory UID
database object becomes an explicit structure that every operation threads.
Definition names follow the source names.
-/

set_option maxRecDepth 20000

namespace UuidManager

/-- Whitespace recognised by the JavaScript `\s` class (and `trim`) on the
characters this program ever sees: space, tab, LF, VT, FF, CR and NBSP. -/
def jsSpace (c : Char) : Bool :=
  c == ' ' || c == '\t' || c == '\n' || c == '\r' ||
  c.toNat == 11 || c.toNat == 12 || c.toNat == 160

/-- `sanitizeIdText` (main.js:856): `("" + text).trim().replace(/\s+/g, "")`.
Trimming followed by deleting every `\s` run is exactly deleting every
whitespace character. -/
def sanitizeIdText (s : String) : String :=
  String.mk (s.data.filter (fun c => !jsSpace c))

/-- The standard Base64 alphabet used by `Base64Coder` (arc). -/
def b64Alphabet : List Char :=
  "ABCDEFGHIJKLMNOPQRSTUVWXYZabcdefghijklmnopqrstuvwxyz0123456789+/".data

/-- Character for a 6-bit group. Indices are always below 64 in practice. -/
def b64Char (i : Nat) : Char := b64Alphabet.getD i '?'

/-- Index of a character in a character list. -/
def charIdx (c : Char) : List Char → Option Nat
  | [] => none
  | x :: xs => if x = c then some 0 else (charIdx c xs).map Nat.succ

/-- Value of a Base64 character; `none` for characters outside the alphabet
(this includes `=`, which `Base64Coder.decode` accepts only as trailing
padding). -/
def b64CharVal (c : Char) : Option Nat := charIdx c b64Alphabet

/-- `Base64Coder.encode`: groups of three bytes become four characters,
with `=` padding for a trailing group of one or two bytes. -/
def b64EncodeGroups : List Nat → List Char
  | [] => []
  | [b0] => [b64Char (b0 / 4), b64Char (b0 % 4 * 16), '=', '=']
  | [b0, b1] =>
      [b64Char (b0 / 4), b64Char (b0 % 4 * 16 + b1 / 16), b64Char (b1 % 16 * 4), '=']
  | b0 :: b1 :: b2 :: rest =>
      b64Char (b0 / 4) :: b64Char (b0 % 4 * 16 + b1 / 16) ::
      b64Char (b1 % 16 * 4 + b2 / 64) :: b64Char (b2 % 64) :: b64EncodeGroups rest

/-- `b64Encode` (main.js:880): Base64 text of a byte list. The JS wrapper only
coerces the Java string; bytes are masked to 0..255 by the encoder. -/
def b64Encode (bytes : List Nat) : String := String.mk (b64EncodeGroups bytes)

/-- Trailing `=` stripping performed by `Base64Coder.decode`. -/
def stripTrailingEq (cs : List Char) : List Char :=
  (cs.reverse.dropWhile (fun c => c == '=')).reverse

/-- Decoding of the `=`-stripped character list, four characters to three
bytes; a final group of two or three characters yields one or two bytes, a
dangling single character is an error (the coder hits an illegal character). -/
def b64DecodeCore : List Char → Option (List Nat)
  | [] => some []
  | [_] => none
  | [c0, c1] =>
      match b64CharVal c0, b64CharVal c1 with
      | some b0, some b1 => some [b0 * 4 + b1 / 16]
      | _, _ => none
  | [c0, c1, c2] =>
      match b64CharVal c0, b64CharVal c1, b64CharVal c2 with
      | some b0, some b1, some b2 => some [b0 * 4 + b1 / 16, b1 % 16 * 16 + b2 / 4]
      | _, _, _ => none
  | c0 :: c1 :: c2 :: c3 :: rest =>
      match b64CharVal c0, b64CharVal c1, b64CharVal c2, b64CharVal c3,
          b64DecodeCore rest with
      | some b0, some b1, some b2, some b3, some tail =>
          some ((b0 * 4 + b1 / 16) :: (b1 % 16 * 16 + b2 / 4) :: (b2 % 4 * 64 + b3) :: tail)
      | _, _, _, _, _ => none

/-- `b64Decode` (main.js:872): `Base64Coder.decode` with its exception mapped
to `none`.  The coder rejects input whose length is not a multiple of four,
then strips trailing `=` and decodes. -/
def b64Decode (s : String) : Option (List Nat) :=
  if s.length % 4 ≠ 0 then none
  else b64DecodeCore (stripTrailingEq s.data)

/-- `padBase64` (main.js:862): infer `=` padding from length mod 4; a length
of 1 mod 4 is irrecoverable and left unchanged. -/
def padBase64 (text : String) : String :=
  let s := sanitizeIdText text
  if s.length % 4 = 0 then s
  else if s.length % 4 = 2 then s ++ "=="
  else if s.length % 4 = 3 then s ++ "="
  else s

/-- One bit step of the reflected CRC-32 used by `java.util.zip.CRC32`. -/
def crc32Bit (r : Nat) : Nat :=
  if r % 2 = 1 then (r >>> 1) ^^^ 0xEDB88320 else r >>> 1

/-- One byte step of CRC-32. -/
def crc32Byte (r b : Nat) : Nat :=
  (List.range 8).foldl (fun acc _ => crc32Bit acc) (r ^^^ b % 256)

/-- `java.util.zip.CRC32` over a byte list (init `0xFFFFFFFF`, final xor). -/
def crc32 (bytes : List Nat) : Nat :=
  (bytes.foldl crc32Byte 0xFFFFFFFF) ^^^ 0xFFFFFFFF

/-- Big-endian bytes of a 32-bit value, as written by `writeLong` for the
low word (main.js:1584-1592). -/
def beBytes32 (v : Nat) : List Nat :=
  [(v >>> 24) % 256, (v >>> 16) % 256, (v >>> 8) % 256, v % 256]

/-- `computeUidBytesFromUuidBytes` (main.js:1570): 8 uuid bytes, four zero
bytes, then the CRC-32 of the uuid bytes in big-endian order.  Java stores
the bytes signed; Base64 re-masks them, so the model keeps them unsigned. -/
def computeUidBytesFromUuidBytes (uuidBytes : List Nat) : Option (List Nat) :=
  if uuidBytes.length ≠ 8 then none
  else some (uuidBytes ++ [0, 0, 0, 0] ++ beBytes32 (crc32 uuidBytes))

/-- UTF-8 encoding of one unicode scalar, as `String.getBytes(utf8)`. -/
def utf8EncodeChar (c : Char) : List Nat :=
  let n := c.toNat
  if n < 128 then [n]
  else if n < 2048 then [192 + n / 64, 128 + n % 64]
  else if n < 65536 then [224 + n / 4096, 128 + n / 64 % 64, 128 + n % 64]
  else [240 + n / 262144, 128 + n / 4096 % 64, 128 + n / 64 % 64, 128 + n % 64]

/-- UTF-8 bytes of a string. -/
def utf8Bytes (s : String) : List Nat := s.data.flatMap utf8EncodeChar

/-- Bitwise complement on a 32-bit word. -/
def w32not (x : Nat) : Nat := 4294967295 - x

/-- 32-bit left rotation. -/
def rotl32 (x s : Nat) : Nat := ((x <<< s) ||| (x >>> (32 - s))) % 4294967296

/-- MD5 round function F. -/
def md5F (b c d : Nat) : Nat := (b &&& c) ||| (w32not b &&& d)

/-- MD5 round function G. -/
def md5G (b c d : Nat) : Nat := (d &&& b) ||| (w32not d &&& c)

/-- MD5 round function H. -/
def md5H (b c d : Nat) : Nat := b ^^^ c ^^^ d

/-- MD5 round function I. -/
def md5I (b c d : Nat) : Nat := c ^^^ (b ||| w32not d)

/-- The 64 MD5 sine constants. -/
def md5K : List Nat :=
  [0xd76aa478, 0xe8c7b756, 0x242070db, 0xc1bdceee,
   0xf57c0faf, 0x4787c62a, 0xa8304613, 0xfd469501,
   0x698098d8, 0x8b44f7af, 0xffff5bb1, 0x895cd7be,
   0x6b901122, 0xfd987193, 0xa679438e, 0x49b40821,
   0xf61e2562, 0xc040b340, 0x265e5a51, 0xe9b6c7aa,
   0xd62f105d, 0x02441453, 0xd8a1e681, 0xe7d3fbc8,
   0x21e1cde6, 0xc33707d6, 0xf4d50d87, 0x455a14ed,
   0xa9e3e905, 0xfcefa3f8, 0x676f02d9, 0x8d2a4c8a,
   0xfffa3942, 0x8771f681, 0x6d9d6122, 0xfde5380c,
   0xa4beea44, 0x4bdecfa9, 0xf6bb4b60, 0xbebfbc70,
   0x289b7ec6, 0xeaa127fa, 0xd4ef3085, 0x04881d05,
   0xd9d4d039, 0xe6db99e5, 0x1fa27cf8, 0xc4ac5665,
   0xf4292244, 0x432aff97, 0xab9423a7, 0xfc93a039,
   0x655b59c3, 0x8f0ccc92, 0xffeff47d, 0x85845dd1,
   0x6fa87e4f, 0xfe2ce6e0, 0xa3014314, 0x4e0811a1,
   0xf7537e82, 0xbd3af235, 0x2ad7d2bb, 0xeb86d391]

/-- The 64 MD5 per-round shift amounts. -/
def md5S : List Nat :=
  [7, 12, 17, 22, 7, 12, 17, 22, 7, 12, 17, 22, 7, 12, 17, 22,
   5, 9, 14, 20, 5, 9, 14, 20, 5, 9, 14, 20, 5, 9, 14, 20,
   4, 11, 16, 23, 4, 11, 16, 23, 4, 11, 16, 23, 4, 11, 16, 23,
   6, 10, 15, 21, 6, 10, 15, 21, 6, 10, 15, 21, 6, 10, 15, 21]

/-- Little-endian bytes of a 64-bit length value. -/
def leBytes64 (v : Nat) : List Nat :=
  [v % 256, (v >>> 8) % 256, (v >>> 16) % 256, (v >>> 24) % 256,
   (v >>> 32) % 256, (v >>> 40) % 256, (v >>> 48) % 256, (v >>> 56) % 256]

/-- Little-endian bytes of a 32-bit word. -/
def leBytes32 (v : Nat) : List Nat :=
  [v % 256, (v >>> 8) % 256, (v >>> 16) % 256, (v >>> 24) % 256]

/-- MD5 padding: a `0x80` byte, zeros to 56 mod 64, then the bit length
little-endian in 8 bytes. -/
def md5PadBytes (msg : List Nat) : List Nat :=
  msg ++ 128 :: List.replicate ((119 - msg.length % 64) % 64) 0 ++
    leBytes64 (msg.length * 8)

/-- Group bytes into little-endian 32-bit words. -/
def leWords : List Nat → List Nat
  | b0 :: b1 :: b2 :: b3 :: rest =>
      (b0 + b1 * 256 + b2 * 65536 + b3 * 16777216) :: leWords rest
  | _ => []

/-- Split a byte list into 64-byte blocks; the fuel argument (instantiated
with the list length, an upper bound on the number of blocks) keeps the
recursion structural so that it evaluates inside the kernel. -/
def chunks64Aux : Nat → List Nat → List (List Nat)
  | 0, _ => []
  | _, [] => []
  | fuel + 1, l => (l.take 64) :: chunks64Aux fuel (l.drop 64)

/-- Split a byte list into 64-byte blocks. -/
def chunks64 (l : List Nat) : List (List Nat) := chunks64Aux l.length l

/-- One MD5 round applied to the running `(a, b, c, d)` state. -/
def md5Round (M : List Nat) (st : Nat × Nat × Nat × Nat) (i : Nat) :
    Nat × Nat × Nat × Nat :=
  let (a, b, c, d) := st
  let fg : Nat × Nat :=
    if i < 16 then (md5F b c d, i)
    else if i < 32 then (md5G b c d, (5 * i + 1) % 16)
    else if i < 48 then (md5H b c d, (3 * i + 5) % 16)
    else (md5I b c d, (7 * i) % 16)
  let f := (fg.1 + a + md5K.getD i 0 + M.getD fg.2 0) % 4294967296
  (d, (b + rotl32 f (md5S.getD i 0)) % 4294967296, b, c)

/-- Process one 64-byte block. -/
def md5ProcessBlock (st : Nat × Nat × Nat × Nat) (block : List Nat) :
    Nat × Nat × Nat × Nat :=
  let M := leWords block
  let r := (List.range 64).foldl (md5Round M) st
  ((st.1 + r.1) % 4294967296, (st.2.1 + r.2.1) % 4294967296,
   (st.2.2.1 + r.2.2.1) % 4294967296, (st.2.2.2 + r.2.2.2) % 4294967296)

/-- MD5 of a byte list, yielding the 16 digest bytes.  This is the digest
`MessageDigest.getInstance("MD5")` used by `shortStrFromUid16`. -/
def md5 (msg : List Nat) : List Nat :=
  let st :=
    (chunks64 (md5PadBytes msg)).foldl md5ProcessBlock
      (0x67452301, 0xefcdab89, 0x98badcfe, 0x10325476)
  leBytes32 st.1 ++ leBytes32 st.2.1 ++ leBytes32 st.2.2.1 ++ leBytes32 st.2.2.2

/-- `mapShortChar` (main.js:797): the safe-character remap applied to the
first three Base64 characters of the second digest. -/
def mapShortChar (c : Char) : Char :=
  if c = 'k' then 'K'
  else if c = 'S' then 's'
  else if c = 'l' then 'L'
  else if c = '+' then 'A'
  else if c = '/' then 'B'
  else c

/-- A character outside `[0-9A-Za-z]` (the per-character test inside
`isAllSpecialUid`, main.js:810-816). -/
def isSpecialChar (c : Char) : Bool :=
  let n := c.toNat
  !((48 ≤ n && n ≤ 57) || (65 ≤ n && n ≤ 90) || (97 ≤ n && n ≤ 122))

/-- `isAllSpecialUid` (main.js:806): true for a 3-character string whose
characters are all outside `[0-9A-Za-z]`; false for any other length. -/
def isAllSpecialUid (s : String) : Bool :=
  s.length == 3 && s.data.all isSpecialChar

/-- `shortStrFromUid16WithDigest` (main.js:911), parametric in the digest:
`base64(digest(digest(text) ++ text))` truncated to three characters and
remapped, where `text` is the sanitized UID-16 Base64 text and hashing is
over its UTF-8 bytes.  The locals `s`, `bs`, `first`, `second` and `b64` of
the source are inlined. -/
def shortStrFromUid16WithDigest (hash : List Nat → List Nat) (uid16 : String) :
    String :=
  if (sanitizeIdText uid16).length = 0 then ""
  else if (b64Encode (hash (hash (utf8Bytes (sanitizeIdText uid16))
      ++ utf8Bytes (sanitizeIdText uid16)))).length < 3 then ""
  else String.mk (((b64Encode (hash (hash (utf8Bytes (sanitizeIdText uid16))
      ++ utf8Bytes (sanitizeIdText uid16)))).data.take 3).map mapShortChar)

/-- `shortStrFromUid16` (main.js:944): the digest is MD5. -/
def shortStrFromUid16 (uid16 : String) : String :=
  shortStrFromUid16WithDigest md5 uid16

/-- The record returned by `normalizeUuidOrUid`; absent JavaScript fields
are modelled by the defaults. -/
structure NormResult where
  valid : Bool := false
  error : String := ""
  kind : String := ""
  uuid8 : String := ""
  uid16 : String := ""
  uid3 : String := ""
  uidMatches : Bool := false
deriving DecidableEq

/-- The decode front-end of `normalizeUuidOrUid` (main.js:1603-1606): try
as-is, then with inferred padding when the length is not a multiple of
four. -/
def decodedBytes (raw : String) : Option (List Nat) :=
  if (b64Decode raw).isNone && raw.length % 4 != 0 then b64Decode (padBase64 raw)
  else b64Decode raw

/-- The length classification of `normalizeUuidOrUid` (main.js:1611-1644)
applied to the decoded bytes: 8 bytes build the uuid record, 16 bytes the
UID record with its `uidMatches` consistency flag, anything else a length
error. -/
def classifyDecoded (bs : List Nat) : NormResult :=
  if bs.length = 8 then
    match computeUidBytesFromUuidBytes bs with
    | none => { valid := false, error := "uid" }
    | some uidBytes =>
      { valid := true, kind := "uuid8", uuid8 := b64Encode bs,
        uid16 := b64Encode uidBytes,
        uid3 := shortStrFromUid16 (b64Encode uidBytes) }
  else if bs.length = 16 then
    match computeUidBytesFromUuidBytes (bs.take 8) with
    | none =>
      { valid := true, kind := "uid16", uuid8 := b64Encode (bs.take 8), uid16 := "",
        uid3 := shortStrFromUid16 "", uidMatches := false }
    | some uidBytes =>
      { valid := true, kind := "uid16", uuid8 := b64Encode (bs.take 8),
        uid16 := b64Encode uidBytes,
        uid3 := shortStrFromUid16 (b64Encode uidBytes),
        uidMatches := (b64Encode uidBytes).length != 0
          && b64Encode uidBytes == b64Encode bs }
  else { valid := false, error := "length" }

/-- `normalizeUuidOrUid` (main.js:1596): sanitize, Base64-decode as-is and
then with inferred padding, then classify by decoded length.  The locals
`raw`, `uuidBytes`, `uidBytes`, `uuid8` and `uid16` are inlined. -/
def normalizeUuidOrUid (inputText : String) : NormResult :=
  if (sanitizeIdText inputText).length = 0 then { valid := false, error := "empty" }
  else
    match decodedBytes (sanitizeIdText inputText) with
    | none => { valid := false, error := "base64" }
    | some bs => classifyDecoded bs

/-- `getUidShortForUuid8` (main.js:1674); the local `norm` is inlined. -/
def getUidShortForUuid8 (uuid8 : String) : String :=
  if !(normalizeUuidOrUid uuid8).valid then "" else (normalizeUuidOrUid uuid8).uid3

/-- The raw 64-character alphabet enumerated by `getAllUidTargets`. -/
def rawShortAlphabet : String :=
  "ABCDEFGHIJKLMNOPQRSTUVWXYZabcdefghijklmnopqrstuvwxyz0123456789+/"

/-- Insertion of a character into a code-point-sorted list. -/
def insertSortedChar (c : Char) : List Char → List Char
  | [] => [c]
  | x :: xs => if c.toNat ≤ x.toNat then c :: x :: xs else x :: insertSortedChar c xs

/-- Code-point insertion sort, the order produced by the JavaScript default
`Array.sort` on single-character strings. -/
def sortChars (l : List Char) : List Char := l.foldr insertSortedChar []

/-- The deduplicated, sorted remapped alphabet (main.js:824-830).  The
JavaScript builds the distinct set as object keys and then sorts it; the
enumeration order before sorting is irrelevant, so last-occurrence
deduplication gives the same sorted list. -/
def uidTargetChars : List Char :=
  sortChars ((rawShortAlphabet.data.map mapShortChar).dedup)

/-- The full 3-ary product of the remapped alphabet, in the nested-loop
order of main.js:834-845. -/
def uidTargetTriples : List String :=
  uidTargetChars.flatMap (fun a =>
    uidTargetChars.flatMap (fun b =>
      uidTargetChars.map (fun c => String.mk [a, b, c])))

/-- The cached `{targets, excludedSpecial}` record. -/
structure UidTargetInfo where
  targets : List String
  excludedSpecial : Nat
deriving DecidableEq

/-- One iteration of the target enumeration loop: special candidates are
counted, the rest appended. -/
def uidTargetStep (acc : UidTargetInfo) (id : String) : UidTargetInfo :=
  if isAllSpecialUid id then { acc with excludedSpecial := acc.excludedSpecial + 1 }
  else { acc with targets := acc.targets ++ [id] }

/-- `getAllUidTargets` (main.js:821): enumerate all triples, excluding the
all-special ones. -/
def getAllUidTargets : UidTargetInfo :=
  uidTargetTriples.foldl uidTargetStep ⟨[], 0⟩

/-- The in-memory `db.map` object: short IDs to token lists, in insertion
order. -/
abbrev UidMap := List (String × List String)

/-- Object property read `m[k]`: the value at the first (for a JavaScript
object, only) occurrence of the key. -/
def lookupMap : UidMap → String → Option (List String)
  | [], _ => none
  | e :: rest, k => if e.1 = k then some e.2 else lookupMap rest k

/-- `m[k]` defaulted to the empty list (as `uidListFromRaw(undefined)`). -/
def lookupList (m : UidMap) (k : String) : List String := (lookupMap m k).getD []

/-- Object property write `m[k] = v`: replace the value in place if the key
exists, otherwise append the new property. -/
def setEntry : UidMap → String → List String → UidMap
  | [], k, v => [(k, v)]
  | e :: rest, k, v => if e.1 = k then (k, v) :: rest else e :: setEntry rest k v

/-- The metadata counters (main.js:527-536 and 659-669).  Numbers are
modelled as `Nat`; only bookkeeping fields beyond the coverage counters are
kept abstractly. -/
structure UidMeta where
  targetCount : Nat := 0
  foundCount : Nat := 0
  excludedSpecialCount : Nat := 0
  excludedTimeoutCount : Nat := 0
  longIdCount : Nat := 0
  checked : Nat := 0
  cores : Nat := 0
  lastBuildAt : Nat := 0
  lastBuildSec : Nat := 0
deriving DecidableEq

/-- The database object `{map, meta}`. -/
structure UidDb where
  map : UidMap := []
  meta : UidMeta := {}
deriving DecidableEq

/-- `defaultUidDb` (main.js:524). -/
def defaultUidDb : UidDb := { map := [], meta := { lastBuildSec := 8 } }

/-- `normalizeUidKey` (main.js:586): sanitized key if exactly 3 characters,
otherwise the empty string. -/
def normalizeUidKey (uid3 : String) : String :=
  let k := sanitizeIdText uid3
  if k.length = 3 then k else ""

/-- A raw JSON value in a persisted or imported `map` field: absent/null, a
single token string, or an array of token strings. -/
inductive RawVal where
  | nullv : RawVal
  | str : String → RawVal
  | arr : List String → RawVal
deriving DecidableEq

/-- Sanitize every element of a stored token list and drop the empties: the
array branch of `uidListFromRaw` (main.js:595-601), which is also how
`recomputeUidDbMeta` renormalizes a stored list. -/
def normTokens (l : List String) : List String :=
  (l.map sanitizeIdText).filter (fun v => !(v.length == 0))

/-- `uidListFromRaw` (main.js:591). -/
def uidListFromRaw : RawVal → List String
  | RawVal.nullv => []
  | RawVal.arr l => normTokens l
  | RawVal.str s =>
      let v := sanitizeIdText s
      if v.length = 0 then [] else [v]

/-- `addUidPair` (main.js:620): returns whether the pair was genuinely new
together with the updated database.  The locals `key`, `val` and `list` of
the source are inlined; `ensureUidList` materialises the entry as an array,
and in this model values are always lists, so only the insert-or-append
effect remains. -/
def addUidPair (db : UidDb) (uid3 uuid8 : String) : Bool × UidDb :=
  if (normalizeUidKey uid3).length ≠ 3 ∨ (sanitizeIdText uuid8).length = 0 then
    (false, db)
  else if sanitizeIdText uuid8 ∈ lookupList db.map (normalizeUidKey uid3) then
    (false, db)
  else
    (true, { db with map := (setEntry db.map (normalizeUidKey uid3)
      (lookupList db.map (normalizeUidKey uid3) ++ [sanitizeIdText uuid8])) })

/-- The drain loop of `buildUidDbAll8s` (main.js:1148-1159): merge a list of
discovered `(shortID, token)` pairs with `addUidPair`. -/
def mergeUidPairs (db : UidDb) (pairs : List (String × String)) : UidDb :=
  pairs.foldl (fun d p => (addUidPair d p.1 p.2).2) db

/-- One step of the `recomputeUidDbMeta` loop over the enumerated targets
(main.js:649-657), accumulating the rewritten map, `foundCount` and
`longIdCount`. -/
def recomputeStep (acc : UidMap × Nat × Nat) (key : String) : UidMap × Nat × Nat :=
  let list := normTokens (lookupList acc.1 key)
  if list.length != 0 then (setEntry acc.1 key list, acc.2.1 + 1, acc.2.2 + list.length)
  else acc

/-- `recomputeUidDbMeta` (main.js:643) without the optional `patch`
argument: the patch only overrides bookkeeping fields (`checked`, `cores`,
timestamps, last-import counters), never the recomputed coverage counters.
`excludedTimeoutCount` is `Math.max(0, targets - found)`, which is `Nat`
subtraction. -/
def recomputeUidDbMeta (db : UidDb) : UidDb :=
  { map := (getAllUidTargets.targets.foldl recomputeStep (db.map, 0, 0)).1,
    meta := { targetCount := getAllUidTargets.targets.length,
              foundCount := (getAllUidTargets.targets.foldl recomputeStep (db.map, 0, 0)).2.1,
              excludedSpecialCount := getAllUidTargets.excludedSpecial,
              excludedTimeoutCount := getAllUidTargets.targets.length
                - (getAllUidTargets.targets.foldl recomputeStep (db.map, 0, 0)).2.1,
              longIdCount := (getAllUidTargets.targets.foldl recomputeStep (db.map, 0, 0)).2.2,
              checked := db.meta.checked,
              cores := db.meta.cores,
              lastBuildAt := db.meta.lastBuildAt,
              lastBuildSec := db.meta.lastBuildSec } }

/-- The inner deduplication loop of `loadUidDb` (main.js:722-730): keep the
first occurrence of every string. -/
def jsUniq (l : List String) : List String :=
  l.foldl (fun acc v => if v ∈ acc then acc else acc ++ [v]) []

/-- One entry of the `loadUidDb` cleaning pass (main.js:714-732): keys must
normalize to 3 characters, values are sanitized, empties dropped and the
remainder deduplicated. -/
def cleanEntryStep (clean : UidMap) (e : String × RawVal) : UidMap :=
  let key := normalizeUidKey e.1
  if key.length ≠ 3 then clean
  else
    let list := uidListFromRaw e.2
    if list.length = 0 then clean
    else setEntry clean key (jsUniq list)

/-- The cleaning pass of `loadUidDb` over a parsed persisted map.  The
JavaScript `for`-`in` enumeration order (integer-like keys first) can
differ from list order; it only permutes the rebuilt entries and is
irrelevant to the properties proved below. -/
def cleanUidDbMap (raw : List (String × RawVal)) : UidMap :=
  raw.foldl cleanEntryStep []

/-- The pure core of `loadUidDb` (main.js:684-753) after JSON parsing
succeeded: clean the persisted map, then recompute the metadata.  File and
settings access around it is environment I/O. -/
def loadUidDbFromParsed (rawMap : List (String × RawVal)) (meta : UidMeta) : UidDb :=
  recomputeUidDbMeta { map := cleanUidDbMap rawMap, meta := meta }

/-- Running counters of the import loop (main.js:1267-1270). -/
structure ImportCounts where
  added : Nat := 0
  duplicate : Nat := 0
  invalid : Nat := 0
  mismatch : Nat := 0
deriving DecidableEq

/-- One record of the import loop (main.js:1272-1292): decode failure
counts `invalid`; a decoded token whose recomputed short ID differs from
the stated one counts `mismatch`; otherwise `addUidPair` decides between
`added` and `duplicate`.  The locals `norm`, `uuid8` and `sid` are
inlined. -/
def processImportPair (st : UidDb × ImportCounts) (p : String × String) :
    UidDb × ImportCounts :=
  if !(normalizeUuidOrUid p.2).valid then
    (st.1, { st.2 with invalid := st.2.invalid + 1 })
  else if getUidShortForUuid8 (normalizeUuidOrUid p.2).uuid8 ≠ p.1 then
    (st.1, { st.2 with mismatch := st.2.mismatch + 1 })
  else if (addUidPair st.1 p.1 (normalizeUuidOrUid p.2).uuid8).1 then
    ((addUidPair st.1 p.1 (normalizeUuidOrUid p.2).uuid8).2,
     { st.2 with added := st.2.added + 1 })
  else
    ((addUidPair st.1 p.1 (normalizeUuidOrUid p.2).uuid8).2,
     { st.2 with duplicate := st.2.duplicate + 1 })

/-- The import loop over all collected records. -/
def importProcessPairs (db : UidDb) (pairs : List (String × String)) :
    UidDb × ImportCounts :=
  pairs.foldl processImportPair (db, {})

/-- JavaScript `trim`: strip leading and trailing whitespace. -/
def jsTrim (s : String) : String :=
  String.mk (((s.data.dropWhile jsSpace).reverse.dropWhile jsSpace).reverse)

/-- `split(/\r?\n/)`: split on LF, then strip one trailing CR per line. -/
def splitLines (text : String) : List String :=
  (text.data.splitOn '\n').map (fun l =>
    String.mk (if l.getLast? = some '\r' then l.dropLast else l))

/-- The separator characters of the negated head class `[^\s:=><,]`. -/
def isSepChar (c : Char) : Bool :=
  c == ':' || c == '=' || c == '>' || c == '<' || c == ','

/-- A character admissible in the first capture group `[^\s:=><,]`. -/
def isHeadChar (c : Char) : Bool := !jsSpace c && !isSepChar c

/-- A character of the separator run class `[:=><,\-]`. -/
def isSepRunChar (c : Char) : Bool := isSepChar c || c == '-'

/-- A character of the token class `[A-Za-z0-9+/=]`. -/
def isTokenChar (c : Char) : Bool :=
  let n := c.toNat
  (65 ≤ n && n ≤ 90) || (97 ≤ n && n ≤ 122) || (48 ≤ n && n ≤ 57) ||
  c == '+' || c == '/' || c == '='

/-- Drop leading JavaScript whitespace (the greedy `\s*`; separator and
token characters are never whitespace, so the greedy match is forced). -/
def dropSpaces (cs : List Char) : List Char := cs.dropWhile jsSpace

/-- Whether a remainder is a non-empty token (`[A-Za-z0-9+/=]+$`). -/
def allToken (cs : List Char) : Bool := cs.length != 0 && cs.all isTokenChar

/-- The backtracking over the separator run of
`(?:[:=><,\-]+\s*)?`: the engine tries the longest run first, shrinking it
one character at a time, and finally omits the optional group. -/
def trySepSplits : Nat → List Char → Option (List Char)
  | 0, rest => if allToken rest then some rest else none
  | i + 1, rest =>
      let cand := dropSpaces (rest.drop (i + 1))
      if allToken cand then some cand
      else trySepSplits i rest

/-- The line regex of `tryCollectImportedPairsFromLines` (main.js:1232):
`^([^\s:=><,]{3})\s*(?:[:=><,\-]+\s*)?([A-Za-z0-9+/=]+)$`, returning the
two capture groups. -/
def matchImportLine (ln : String) : Option (String × String) :=
  match ln.data with
  | c0 :: c1 :: c2 :: rest =>
    if isHeadChar c0 && isHeadChar c1 && isHeadChar c2 then
      let rest0 := dropSpaces rest
      match trySepSplits (rest0.takeWhile isSepRunChar).length rest0 with
      | some tok => some (String.mk [c0, c1, c2], String.mk tok)
      | none => none
    else none
  | _ => none

/-- `tryCollectImportedPairsFromLines` (main.js:1221): trim each line, skip
blanks and `#` comments, match the line pattern and keep records whose key
normalizes to 3 characters with a non-empty token. -/
def tryCollectImportedPairsFromLines (text : String) : List (String × String) :=
  (splitLines text).foldl (fun out lnRaw =>
    let ln := jsTrim lnRaw
    if ln.length = 0 then out
    else if ln.data.head? = some '#' then out
    else
      match matchImportLine ln with
      | none => out
      | some m =>
        let uid := normalizeUidKey m.1
        let raw := sanitizeIdText m.2
        if uid.length ≠ 3 ∨ raw.length = 0 then out
        else out ++ [(uid, raw)]) []

/-- The record returned by `importUidDbText`; `ok` is the save-success
flag, which depends on file I/O and is not part of the counting claims. -/
structure ImportResult where
  recognized : Bool := true
  added : Nat := 0
  duplicate : Nat := 0
  invalid : Nat := 0
  mismatch : Nat := 0
  totalParsed : Nat := 0
deriving DecidableEq

/-- `importUidDbText` (main.js:1242) on the line-oriented path (taken when
`JSON.parse` fails, as it does for any plain `id: token` line): collect the
line records, run the classification loop, recompute the metadata and
report the itemized counts. -/
def importUidDbTextPlain (db : UidDb) (payload : String) : UidDb × ImportResult :=
  if (jsTrim payload).length = 0 then (db, { recognized := false })
  else if (tryCollectImportedPairsFromLines (jsTrim payload)).length = 0 then
    (db, { recognized := false })
  else
    (recomputeUidDbMeta
        (importProcessPairs db (tryCollectImportedPairsFromLines (jsTrim payload))).1,
     { recognized := true,
       added := (importProcessPairs db
         (tryCollectImportedPairsFromLines (jsTrim payload))).2.added,
       duplicate := (importProcessPairs db
         (tryCollectImportedPairsFromLines (jsTrim payload))).2.duplicate,
       invalid := (importProcessPairs db
         (tryCollectImportedPairsFromLines (jsTrim payload))).2.invalid,
       mismatch := (importProcessPairs db
         (tryCollectImportedPairsFromLines (jsTrim payload))).2.mismatch,
       totalParsed := (tryCollectImportedPairsFromLines (jsTrim payload)).length })

/-- `UID_DB_FILE` (main.js:49). -/
def uidDbFileName : String := "uuidmanager.uiddb.json"

/-- JSON string literal for the token and key strings handled here (they
never contain characters needing escapes). -/
def jsonStr (s : String) : String := "\"" ++ s ++ "\""

/-- Comma-joining of serialized JSON members. -/
def joinComma : List String → String
  | [] => ""
  | [x] => x
  | x :: y :: rest => x ++ "," ++ joinComma (y :: rest)

/-- `JSON.stringify` of a token array. -/
def stringifyTokenList (l : List String) : String :=
  "[" ++ joinComma (l.map jsonStr) ++ "]"

/-- `JSON.stringify` of the `map` object, keys in insertion order. -/
def stringifyUidMap (m : UidMap) : String :=
  "\x7b" ++
    joinComma (m.map (fun e => jsonStr e.1 ++ ":" ++ stringifyTokenList e.2)) ++
  "\x7d"

/-- `JSON.stringify` of the metadata object, fields in the insertion order
produced by `recomputeUidDbMeta`. -/
def stringifyUidMeta (meta : UidMeta) : String :=
  "\x7b\"targetCount\":" ++ toString meta.targetCount ++
  ",\"foundCount\":" ++ toString meta.foundCount ++
  ",\"excludedSpecialCount\":" ++ toString meta.excludedSpecialCount ++
  ",\"excludedTimeoutCount\":" ++ toString meta.excludedTimeoutCount ++
  ",\"longIdCount\":" ++ toString meta.longIdCount ++
  ",\"checked\":" ++ toString meta.checked ++
  ",\"cores\":" ++ toString meta.cores ++
  ",\"lastBuildAt\":" ++ toString meta.lastBuildAt ++
  ",\"lastBuildSec\":" ++ toString meta.lastBuildSec ++ "\x7d"

/-- `JSON.stringify(db)` for the database object `{map, meta}`. -/
def stringifyUidDb (db : UidDb) : String :=
  "\x7b\"map\":" ++ stringifyUidMap db.map ++
  ",\"meta\":" ++ stringifyUidMeta db.meta ++ "\x7d"

/-- The file writes performed by `saveUidDb` (main.js:755): a single
`writeString` of the full serialized database to the single database
file. -/
def saveUidDbWrites (db : UidDb) : List (String × String) :=
  [(uidDbFileName, stringifyUidDb db)]

/-- Outcome of the synchronous prefix of `findUuid8ByUidShortParallel`
(main.js:955-961): either the immediate invalid-target completion (zero
workers started) or the start of a search with one worker per core. -/
inductive FindStart where
  | invalidTarget : String → FindStart
  | searchStarted : String → Nat → FindStart
deriving DecidableEq

/-- Number of workers spawned in each outcome. -/
def FindStart.workers : FindStart → Nat
  | FindStart.invalidTarget _ => 0
  | FindStart.searchStarted _ n => n

/-- `findUuid8ByUidShortParallel` (main.js:955): the target is sanitized;
anything but a 3-character result posts the `{ok:false, error:"invalid"}`
completion without spawning workers, otherwise one worker per core
(`Math.max(1, availableProcessors)`) is started. -/
def findUuid8ByUidShortParallelStart (cores : Nat) (targetUid : String) :
    FindStart :=
  let target := sanitizeIdText targetUid
  if target.length ≠ 3 then FindStart.invalidTarget target
  else FindStart.searchStarted target (max 1 cores)

/-- The number of targets whose stored (renormalized) token list is
non-empty: the coverage count that `recomputeUidDbMeta` computes. -/
def foundCountOf (m : UidMap) : Nat :=
  getAllUidTargets.targets.countP (fun k => (normTokens (lookupList m k)).length != 0)

/-! ### Lemmas about the embedded operations -/

theorem sanitizeIdText_data (s : String) :
    (sanitizeIdText s).data = s.data.filter (fun c => !jsSpace c) := rfl

theorem sanitizeIdText_idem (s : String) :
    sanitizeIdText (sanitizeIdText s) = sanitizeIdText s := by
  unfold sanitizeIdText
  exact congrArg String.mk (by simp [List.filter_filter])

theorem sanitizeIdText_of_no_space (s : String)
    (h : ∀ c ∈ s.data, jsSpace c = false) : sanitizeIdText s = s := by
  unfold sanitizeIdText
  rw [List.filter_eq_self.mpr (by simpa using h)]

theorem normTokens_mem (l : List String) (v : String) (hv : v ∈ normTokens l) :
    sanitizeIdText v = v ∧ v.length ≠ 0 := by
  unfold normTokens at hv
  rcases List.mem_filter.mp hv with ⟨hm, hlen⟩
  rcases List.mem_map.mp hm with ⟨w, _, rfl⟩
  refine ⟨sanitizeIdText_idem w, ?_⟩
  simpa using hlen

theorem normTokens_of_sanitized (l : List String)
    (h : ∀ v ∈ l, sanitizeIdText v = v ∧ v.length ≠ 0) : normTokens l = l := by
  unfold normTokens
  have hm : l.map sanitizeIdText = l.map id :=
    List.map_congr_left (fun v hv => (h v hv).1)
  rw [hm, List.map_id]
  exact List.filter_eq_self.mpr (fun v hv => by simpa using (h v hv).2)

theorem normTokens_idem (l : List String) :
    normTokens (normTokens l) = normTokens l :=
  normTokens_of_sanitized _ (fun v hv => normTokens_mem l v hv)

theorem normTokens_append (l1 l2 : List String) :
    normTokens (l1 ++ l2) = normTokens l1 ++ normTokens l2 := by
  unfold normTokens
  simp

theorem lookupMap_setEntry (m : UidMap) (k : String) (v : List String)
    (k2 : String) :
    lookupMap (setEntry m k v) k2 = if k2 = k then some v else lookupMap m k2 := by
  induction m with
  | nil =>
      by_cases h : k = k2
      · subst h
        simp [setEntry, lookupMap]
      · simp [setEntry, lookupMap, h, Ne.symm h]
  | cons e rest ih =>
      simp only [setEntry]
      by_cases h : e.1 = k
      · rw [if_pos h]
        simp only [lookupMap]
        by_cases h2 : k2 = k
        · subst h2
          simp
        · have hk2 : ¬ k = k2 := fun hk => h2 hk.symm
          have he2 : ¬ e.1 = k2 := fun hk => h2 ((h.symm.trans hk).symm)
          simp [hk2, h2, he2]
      · rw [if_neg h]
        simp only [lookupMap, ih]
        by_cases h2 : e.1 = k2
        · have hne : ¬ k2 = k := fun hk => h (h2.trans hk)
          simp [h2, hne]
        · simp [h2]

theorem lookupList_setEntry (m : UidMap) (k : String) (v : List String)
    (k2 : String) :
    lookupList (setEntry m k v) k2 = if k2 = k then v else lookupList m k2 := by
  unfold lookupList
  rw [lookupMap_setEntry]
  by_cases h : k2 = k <;> simp [h, lookupList]

theorem mem_setEntry (m : UidMap) (k : String) (v : List String)
    (e : String × List String) (he : e ∈ setEntry m k v) :
    e = (k, v) ∨ e ∈ m := by
  induction m with
  | nil => simpa [setEntry] using he
  | cons f rest ih =>
      simp only [setEntry] at he
      by_cases h : f.1 = k
      · rw [if_pos h] at he
        rcases List.mem_cons.mp he with he | he
        · exact Or.inl he
        · exact Or.inr (List.mem_cons_of_mem _ he)
      · rw [if_neg h] at he
        rcases List.mem_cons.mp he with he | he
        · refine Or.inr ?_
          rw [he]
          exact List.mem_cons_self f rest
        · rcases ih he with h1 | h1
          · exact Or.inl h1
          · exact Or.inr (List.mem_cons_of_mem _ h1)

theorem lookupMap_mem (m : UidMap) (k : String) (v : List String)
    (h : lookupMap m k = some v) : (k, v) ∈ m := by
  induction m with
  | nil => simp [lookupMap] at h
  | cons e rest ih =>
      simp only [lookupMap] at h
      by_cases hk : e.1 = k
      · rw [if_pos hk] at h
        have hv : e.2 = v := by injection h
        have he : (k, v) = e := by
          rw [← hk, ← hv]
        exact List.mem_cons.mpr (Or.inl he)
      · rw [if_neg hk] at h
        exact List.mem_cons_of_mem _ (ih h)

theorem uidTargetChars_all_alnum :
    uidTargetChars.all (fun c => !isSpecialChar c) = true := by decide

theorem isAllSpecialUid_of_mem_chars (a b c : Char) (ha : a ∈ uidTargetChars) :
    isAllSpecialUid (String.mk [a, b, c]) = false := by
  have hs : isSpecialChar a = false := by
    simpa using List.all_eq_true.mp uidTargetChars_all_alnum a ha
  simp [isAllSpecialUid, List.all_cons, hs]

theorem uidTargetTriples_not_special (s : String) (hs : s ∈ uidTargetTriples) :
    isAllSpecialUid s = false := by
  rcases List.mem_flatMap.mp hs with ⟨a, ha, hs1⟩
  rcases List.mem_flatMap.mp hs1 with ⟨b, _, hs2⟩
  rcases List.mem_map.mp hs2 with ⟨c, _, rfl⟩
  exact isAllSpecialUid_of_mem_chars a b c ha

theorem uidTargetStep_foldl_targets (l : List String) :
    ∀ acc : UidTargetInfo, (l.foldl uidTargetStep acc).targets
      = acc.targets ++ l.filter (fun s => !isAllSpecialUid s) := by
  induction l with
  | nil =>
      intro acc
      simp
  | cons x xs ih =>
      intro acc
      simp only [List.foldl_cons, uidTargetStep]
      by_cases hx : isAllSpecialUid x
      · rw [if_pos hx, ih]
        simp [List.filter_cons, hx]
      · rw [if_neg hx, ih]
        simp [List.filter_cons, hx]

theorem uidTargetStep_foldl_excluded (l : List String) :
    ∀ acc : UidTargetInfo, (l.foldl uidTargetStep acc).excludedSpecial
      = acc.excludedSpecial + (l.filter (fun s => isAllSpecialUid s)).length := by
  induction l with
  | nil =>
      intro acc
      simp
  | cons x xs ih =>
      intro acc
      simp only [List.foldl_cons, uidTargetStep]
      by_cases hx : isAllSpecialUid x
      · rw [if_pos hx, ih]
        simp [List.filter_cons, hx]
        omega
      · rw [if_neg hx, ih]
        simp [List.filter_cons, hx]

theorem getAllUidTargets_targets_eq :
    getAllUidTargets.targets = uidTargetTriples := by
  unfold getAllUidTargets
  rw [uidTargetStep_foldl_targets]
  have : uidTargetTriples.filter (fun s => !isAllSpecialUid s) = uidTargetTriples :=
    List.filter_eq_self.mpr
      (fun s hs => by simp [uidTargetTriples_not_special s hs])
  rw [this]
  rfl

theorem getAllUidTargets_excludedSpecial_eq_zero :
    getAllUidTargets.excludedSpecial = 0 := by
  unfold getAllUidTargets
  rw [uidTargetStep_foldl_excluded]
  have : uidTargetTriples.filter (fun s => isAllSpecialUid s) = [] := by
    rw [List.filter_eq_nil_iff]
    intro s hs
    simp [uidTargetTriples_not_special s hs]
  rw [this]
  rfl

theorem length_flatMap_const {α β : Type} (l : List α) (f : α → List β) (n : Nat)
    (h : ∀ a ∈ l, (f a).length = n) : (l.flatMap f).length = l.length * n := by
  induction l with
  | nil => simp
  | cons x xs ih =>
      simp only [List.flatMap_cons, List.length_append, List.length_cons]
      rw [h x (List.mem_cons_self x xs), ih (fun a ha => h a (List.mem_cons_of_mem _ ha))]
      ring

theorem uidTargetTriples_length : uidTargetTriples.length = 205379 := by
  have h59 : uidTargetChars.length = 59 := by decide
  unfold uidTargetTriples
  rw [length_flatMap_const _ _ 3481, h59]
  intro a _
  rw [length_flatMap_const _ _ 59, h59]
  intro b _
  rw [List.length_map, h59]

attribute [irreducible] uidTargetTriples getAllUidTargets

/-- C10: the deduplicated remapped alphabet has exactly 59 distinct
characters, all inside `[0-9A-Za-z]` (none of `k`, `S`, `l`, `+`, `/`
survives the remap); consequently the target enumeration classifies no
candidate as special, yields `59^3 = 205379` targets and reports zero
excluded-special candidates. -/
theorem uid_target_alphabet_and_enumeration :
    uidTargetChars.length = 59 ∧ uidTargetChars.Nodup ∧
    uidTargetChars.all (fun c => !isSpecialChar c) = true ∧
    ('k' ∉ uidTargetChars ∧ 'S' ∉ uidTargetChars ∧ 'l' ∉ uidTargetChars ∧
      '+' ∉ uidTargetChars ∧ '/' ∉ uidTargetChars) ∧
    getAllUidTargets.targets.all (fun s => !isAllSpecialUid s) = true ∧
    getAllUidTargets.targets.length = 205379 ∧
    getAllUidTargets.excludedSpecial = 0 := by
  refine ⟨by decide, by decide, uidTargetChars_all_alnum,
    ⟨by decide, by decide, by decide, by decide, by decide⟩, ?_, ?_,
    getAllUidTargets_excludedSpecial_eq_zero⟩
  · rw [List.all_eq_true]
    intro s hs
    rw [getAllUidTargets_targets_eq] at hs
    simp [uidTargetTriples_not_special s hs]
  · rw [getAllUidTargets_targets_eq]
    exact uidTargetTriples_length

/-- C2: for every 8-byte SecretToken, the derived PublicToken is exactly 16
bytes: bytes 0-7 are the token, bytes 8-11 are zero and bytes 12-15 are the
big-endian CRC-32 of the token. -/
theorem secretToPublic_layout (u : List Nat) (h : u.length = 8) :
    ∃ out, computeUidBytesFromUuidBytes u = some out ∧
      out.length = 16 ∧ out.take 8 = u ∧ (out.drop 8).take 4 = [0, 0, 0, 0] ∧
      out.drop 12 = beBytes32 (crc32 u) := by
  refine ⟨u ++ [0, 0, 0, 0] ++ beBytes32 (crc32 u), ?_, ?_, ?_, ?_, ?_⟩
  · unfold computeUidBytesFromUuidBytes
    rw [if_neg (by omega)]
  · simp [beBytes32, h]
  · rw [List.append_assoc, List.take_append_of_le_length (le_of_eq h.symm), ← h,
      List.take_length]
  · rw [List.append_assoc, ← h, List.drop_left,
      List.take_append_of_le_length (by simp)]
    rfl
  · have h12 : (u ++ [0, 0, 0, 0]).length = 12 := by simp [h]
    rw [← h12, List.drop_left]

theorem secretToPublic_layout_witness :
    ∃ out, computeUidBytesFromUuidBytes [0, 0, 0, 0, 0, 0, 0, 0] = some out ∧
      out.length = 16 ∧ out.take 8 = [0, 0, 0, 0, 0, 0, 0, 0] ∧
      (out.drop 8).take 4 = [0, 0, 0, 0] ∧
      out.drop 12 = beBytes32 (crc32 [0, 0, 0, 0, 0, 0, 0, 0]) :=
  secretToPublic_layout [0, 0, 0, 0, 0, 0, 0, 0] (by decide)

theorem addUidPair_ok (db : UidDb) (uid3 uuid8 : String)
    (hk : (normalizeUidKey uid3).length = 3)
    (hv : (sanitizeIdText uuid8).length ≠ 0)
    (hmem : sanitizeIdText uuid8 ∉ lookupList db.map (normalizeUidKey uid3)) :
    addUidPair db uid3 uuid8 =
      (true, { db with map := (setEntry db.map (normalizeUidKey uid3)
        (lookupList db.map (normalizeUidKey uid3) ++ [sanitizeIdText uuid8])) }) := by
  unfold addUidPair
  rw [if_neg (fun hc => hc.elim (fun hb => hb hk) hv), if_neg hmem]

theorem addUidPair_noop (db : UidDb) (uid3 uuid8 : String)
    (h : ¬((normalizeUidKey uid3).length = 3 ∧ (sanitizeIdText uuid8).length ≠ 0 ∧
      sanitizeIdText uuid8 ∉ lookupList db.map (normalizeUidKey uid3))) :
    addUidPair db uid3 uuid8 = (false, db) := by
  unfold addUidPair
  by_cases hbad : (normalizeUidKey uid3).length ≠ 3 ∨ (sanitizeIdText uuid8).length = 0
  · rw [if_pos hbad]
  · push_neg at hbad
    rw [if_neg (fun hc => hc.elim (fun hb => hb hbad.1) hbad.2)]
    rw [if_pos (by
      by_contra hmem
      exact h ⟨hbad.1, hbad.2, hmem⟩)]

/-- C7: merging the same pair twice adds it at most once: the first merge
reports `true` exactly for a well-formed, genuinely new pair, and the
second merge always reports a duplicate and leaves the database exactly as
it was after the first merge. -/
theorem addUidPair_twice_idempotent (db : UidDb) (uid3 uuid8 : String) :
    ((addUidPair db uid3 uuid8).1 = true ↔
      ((normalizeUidKey uid3).length = 3 ∧ (sanitizeIdText uuid8).length ≠ 0 ∧
        sanitizeIdText uuid8 ∉ lookupList db.map (normalizeUidKey uid3))) ∧
    (addUidPair (addUidPair db uid3 uuid8).2 uid3 uuid8).1 = false ∧
    (addUidPair (addUidPair db uid3 uuid8).2 uid3 uuid8).2
      = (addUidPair db uid3 uuid8).2 := by
  by_cases hok : (normalizeUidKey uid3).length = 3 ∧ (sanitizeIdText uuid8).length ≠ 0 ∧
      sanitizeIdText uuid8 ∉ lookupList db.map (normalizeUidKey uid3)
  · obtain ⟨hk, hv, hmem⟩ := hok
    have h1 := addUidPair_ok db uid3 uuid8 hk hv hmem
    have hmem2 : sanitizeIdText uuid8 ∈
        lookupList (addUidPair db uid3 uuid8).2.map (normalizeUidKey uid3) := by
      rw [h1, lookupList_setEntry, if_pos rfl]
      exact List.mem_append_right _ (List.mem_singleton.mpr rfl)
    have h2 : addUidPair (addUidPair db uid3 uuid8).2 uid3 uuid8
        = (false, (addUidPair db uid3 uuid8).2) :=
      addUidPair_noop _ uid3 uuid8 (fun hc => hc.2.2 hmem2)
    rw [h2, h1]
    exact ⟨by simp [hk, hv, hmem], rfl, rfl⟩
  · have h1 := addUidPair_noop db uid3 uuid8 hok
    have h2 : addUidPair (addUidPair db uid3 uuid8).2 uid3 uuid8 = (false, db) := by
      rw [h1]
      exact addUidPair_noop db uid3 uuid8 hok
    rw [h2, h1]
    exact ⟨iff_of_false (by simp) hok, rfl, rfl⟩

theorem addUidPair_twice_idempotent_witness :
    ((addUidPair defaultUidDb "abc" "AAAAAAAAAAA=").1 = true ↔
      ((normalizeUidKey "abc").length = 3 ∧ (sanitizeIdText "AAAAAAAAAAA=").length ≠ 0 ∧
        sanitizeIdText "AAAAAAAAAAA=" ∉ lookupList defaultUidDb.map (normalizeUidKey "abc"))) ∧
    (addUidPair (addUidPair defaultUidDb "abc" "AAAAAAAAAAA=").2 "abc" "AAAAAAAAAAA=").1 = false ∧
    (addUidPair (addUidPair defaultUidDb "abc" "AAAAAAAAAAA=").2 "abc" "AAAAAAAAAAA=").2
      = (addUidPair defaultUidDb "abc" "AAAAAAAAAAA=").2 :=
  addUidPair_twice_idempotent defaultUidDb "abc" "AAAAAAAAAAA="

/-- C9 (amended): the targeted search rejects a target whose sanitized form
is not exactly 3 characters: it reports the invalid-target completion and
spawns no worker. -/
theorem findToken_rejects_bad_sanitized_target (cores : Nat) (targetUid : String)
    (h : (sanitizeIdText targetUid).length ≠ 3) :
    findUuid8ByUidShortParallelStart cores targetUid
        = FindStart.invalidTarget (sanitizeIdText targetUid) ∧
    (findUuid8ByUidShortParallelStart cores targetUid).workers = 0 := by
  unfold findUuid8ByUidShortParallelStart
  rw [if_pos h]
  exact ⟨rfl, rfl⟩

theorem findToken_rejects_bad_sanitized_target_witness :
    findUuid8ByUidShortParallelStart 1 "ab"
        = FindStart.invalidTarget (sanitizeIdText "ab") ∧
    (findUuid8ByUidShortParallelStart 1 "ab").workers = 0 :=
  findToken_rejects_bad_sanitized_target 1 "ab" (by decide)

/-- C9 counterexample: the argument `"ab c"` is not exactly 3 characters,
yet the search does not fail — the target is sanitized to `"abc"` first and
workers are spawned, contradicting the claim as stated over the raw
argument. -/
theorem findToken_nonthree_argument_starts_search :
    "ab c".length ≠ 3 ∧
    findUuid8ByUidShortParallelStart 4 "ab c" = FindStart.searchStarted "abc" 4 ∧
    (findUuid8ByUidShortParallelStart 4 "ab c").workers ≠ 0 :=
  ⟨by decide, by decide, by decide⟩

theorem isInfix_append_left {α : Type} (s : List α) {a b : List α}
    (h : a <:+: b) : a <:+: s ++ b :=
  h.trans (List.suffix_append s b).isInfix

theorem isInfix_append_right {α : Type} (t : List α) {a b : List α}
    (h : a <:+: b) : a <:+: b ++ t :=
  h.trans (List.prefix_append b t).isInfix

theorem mem_joinComma_infix (l : List String) (x : String) (hx : x ∈ l) :
    x.data <:+: (joinComma l).data := by
  induction l with
  | nil => simp at hx
  | cons y rest ih =>
      cases rest with
      | nil =>
          obtain rfl : x = y := by simpa using hx
          exact List.infix_rfl
      | cons z rest2 =>
          rcases List.mem_cons.mp hx with rfl | hx2
          · exact isInfix_append_right _
              (isInfix_append_right _ (List.infix_rfl (l := x.data)))
          · exact isInfix_append_left _ (ih hx2)

/-- A concrete two-entry database used as a counterexample input. -/
def twoEntryDb : UidDb :=
  { map := [("abc", ["AAAAAAAAAAA="]), ("abd", ["BBBBBBBBBBB="])], meta := {} }

/-- C6 counterexample: for a concrete two-entry database the save step is a
single write of the full serialization to the one database file — there is
no manifest write and no shard partitioning, contradicting the claim. -/
theorem saveUidDb_no_shards_counterexample :
    (saveUidDbWrites twoEntryDb).length = 1 ∧
    ¬ 2 ≤ (saveUidDbWrites twoEntryDb).length ∧
    (saveUidDbWrites twoEntryDb).map Prod.fst = [uidDbFileName] :=
  ⟨by decide, by decide, by decide⟩

/-- C6 (amended): save performs exactly one write — the whole database
serialized as a single JSON blob into the single database file; the
serialization of every map entry is contained in that one write. -/
theorem saveUidDb_writes_single_monolithic_file (db : UidDb) :
    (saveUidDbWrites db).length = 1 ∧
    saveUidDbWrites db = [(uidDbFileName, stringifyUidDb db)] ∧
    ∀ e ∈ db.map, (jsonStr e.1 ++ ":" ++ stringifyTokenList e.2).data
      <:+: (stringifyUidDb db).data := by
  refine ⟨rfl, rfl, ?_⟩
  intro e he
  have h1 : (jsonStr e.1 ++ ":" ++ stringifyTokenList e.2) ∈
      db.map.map (fun e => jsonStr e.1 ++ ":" ++ stringifyTokenList e.2) :=
    List.mem_map_of_mem _ he
  have h2 := mem_joinComma_infix _ _ h1
  show _ <:+: ("\x7b\"map\":".data ++ (("\x7b".data ++ _) ++ "\x7d".data)) ++ _ ++ _ ++ _
  exact isInfix_append_right _ (isInfix_append_right _ (isInfix_append_right _
    (isInfix_append_left _ (isInfix_append_right _ (isInfix_append_left _ h2)))))

theorem saveUidDb_writes_single_monolithic_file_witness :
    ((saveUidDbWrites defaultUidDb).length = 1 ∧
      saveUidDbWrites defaultUidDb = [(uidDbFileName, stringifyUidDb defaultUidDb)]) :=
  ⟨(saveUidDb_writes_single_monolithic_file defaultUidDb).1,
   (saveUidDb_writes_single_monolithic_file defaultUidDb).2.1⟩

theorem recompute_foldl (ts : List String) :
    ∀ (m0 m : UidMap) (f g : Nat),
      (∀ k, normTokens (lookupList m k) = normTokens (lookupList m0 k)) →
      ((∀ k, normTokens (lookupList (ts.foldl recomputeStep (m, f, g)).1 k)
          = normTokens (lookupList m0 k)) ∧
        (ts.foldl recomputeStep (m, f, g)).2.1
          = f + ts.countP (fun k => (normTokens (lookupList m0 k)).length != 0) ∧
        (∀ k, lookupList (ts.foldl recomputeStep (m, f, g)).1 k = lookupList m k ∨
          lookupList (ts.foldl recomputeStep (m, f, g)).1 k
            = normTokens (lookupList m0 k))) := by
  induction ts with
  | nil =>
      intro m0 m f g hm
      exact ⟨hm, by simp, fun k => Or.inl rfl⟩
  | cons t ts ih =>
      intro m0 m f g hm
      simp only [List.foldl_cons]
      by_cases ht : (normTokens (lookupList m t)).length != 0
      · have hpt : ((normTokens (lookupList m0 t)).length != 0) = true := by
          rw [← hm t]
          exact ht
        have hstep : recomputeStep (m, f, g) t
            = (setEntry m t (normTokens (lookupList m t)), f + 1,
               g + (normTokens (lookupList m t)).length) := by
          unfold recomputeStep
          rw [if_pos ht]
        rw [hstep]
        have hm1 : ∀ k, normTokens (lookupList (setEntry m t (normTokens (lookupList m t))) k)
            = normTokens (lookupList m0 k) := by
          intro k
          rw [lookupList_setEntry]
          by_cases hk : k = t
          · rw [if_pos hk, normTokens_idem, hk]
            exact hm t
          · rw [if_neg hk]
            exact hm k
        obtain ⟨ih1, ih2, ih3⟩ := ih m0 _ (f + 1) _ hm1
        refine ⟨ih1, ?_, ?_⟩
        · rw [ih2, List.countP_cons_of_pos
            (fun k => (normTokens (lookupList m0 k)).length != 0) ts hpt]
          omega
        · intro k
          rcases ih3 k with h | h
          · rw [lookupList_setEntry] at h
            by_cases hk : k = t
            · rw [if_pos hk] at h
              refine Or.inr ?_
              rw [h, hk]
              exact hm t
            · rw [if_neg hk] at h
              exact Or.inl h
          · exact Or.inr h
      · have hpt : ((normTokens (lookupList m0 t)).length != 0) = false := by
          rw [← hm t]
          simpa using ht
        have hstep : recomputeStep (m, f, g) t = (m, f, g) := by
          unfold recomputeStep
          rw [if_neg ht]
        rw [hstep]
        obtain ⟨ih1, ih2, ih3⟩ := ih m0 m f g hm
        refine ⟨ih1, ?_, ih3⟩
        rw [ih2, List.countP_cons_of_neg
          (fun k => (normTokens (lookupList m0 k)).length != 0) ts (by simp [hpt])]

theorem UidDb_mk_map (m : UidMap) (mt : UidMeta) : (UidDb.mk m mt).map = m := rfl

theorem UidDb_mk_meta (m : UidMap) (mt : UidMeta) : (UidDb.mk m mt).meta = mt := rfl

theorem UidMeta_mk_targetCount (a b c d e f g h i : Nat) :
    (UidMeta.mk a b c d e f g h i).targetCount = a := rfl

theorem UidMeta_mk_foundCount (a b c d e f g h i : Nat) :
    (UidMeta.mk a b c d e f g h i).foundCount = b := rfl

theorem UidMeta_mk_excludedSpecialCount (a b c d e f g h i : Nat) :
    (UidMeta.mk a b c d e f g h i).excludedSpecialCount = c := rfl

theorem UidMeta_mk_excludedTimeoutCount (a b c d e f g h i : Nat) :
    (UidMeta.mk a b c d e f g h i).excludedTimeoutCount = d := rfl

theorem recomputeUidDbMeta_foundCount (db : UidDb) :
    (recomputeUidDbMeta db).meta.foundCount = foundCountOf db.map := by
  obtain ⟨h1, h2, h3⟩ :=
    recompute_foldl getAllUidTargets.targets db.map db.map 0 0 (fun k => rfl)
  rw [recomputeUidDbMeta, UidDb_mk_meta, UidMeta_mk_foundCount]
  unfold foundCountOf
  rw [h2]
  omega

theorem recomputeUidDbMeta_targetCount (db : UidDb) :
    (recomputeUidDbMeta db).meta.targetCount = getAllUidTargets.targets.length := by
  rw [recomputeUidDbMeta]

theorem recomputeUidDbMeta_excludedSpecialCount (db : UidDb) :
    (recomputeUidDbMeta db).meta.excludedSpecialCount = 0 := by
  rw [recomputeUidDbMeta, UidDb_mk_meta, UidMeta_mk_excludedSpecialCount]
  exact getAllUidTargets_excludedSpecial_eq_zero

theorem recomputeUidDbMeta_excludedTimeoutCount (db : UidDb) :
    (recomputeUidDbMeta db).meta.excludedTimeoutCount
      = getAllUidTargets.targets.length - foundCountOf db.map := by
  obtain ⟨h1, h2, h3⟩ :=
    recompute_foldl getAllUidTargets.targets db.map db.map 0 0 (fun k => rfl)
  rw [recomputeUidDbMeta, UidDb_mk_meta, UidMeta_mk_excludedTimeoutCount]
  unfold foundCountOf
  rw [h2]
  omega

theorem recomputeUidDbMeta_lookup (db : UidDb) :
    ∀ k, lookupList (recomputeUidDbMeta db).map k = lookupList db.map k ∨
      lookupList (recomputeUidDbMeta db).map k = normTokens (lookupList db.map k) := by
  obtain ⟨h1, h2, h3⟩ :=
    recompute_foldl getAllUidTargets.targets db.map db.map 0 0 (fun k => rfl)
  rw [recomputeUidDbMeta, UidDb_mk_map]
  exact h3

theorem addUidPair_covered_mono (db : UidDb) (u v : String) (k : String)
    (h : (normTokens (lookupList db.map k)).length ≠ 0) :
    (normTokens (lookupList (addUidPair db u v).2.map k)).length ≠ 0 := by
  by_cases hok : (normalizeUidKey u).length = 3 ∧ (sanitizeIdText v).length ≠ 0 ∧
      sanitizeIdText v ∉ lookupList db.map (normalizeUidKey u)
  · rw [addUidPair_ok db u v hok.1 hok.2.1 hok.2.2]
    show (normTokens (lookupList (setEntry db.map (normalizeUidKey u) _) k)).length ≠ 0
    rw [lookupList_setEntry]
    by_cases hk : k = normalizeUidKey u
    · rw [if_pos hk, normTokens_append, List.length_append, ← hk]
      intro hc
      exact h (by omega)
    · rw [if_neg hk]
      exact h
  · rw [addUidPair_noop db u v hok]
    exact h

theorem mergeUidPairs_covered_mono (pairs : List (String × String)) :
    ∀ (db : UidDb) (k : String), (normTokens (lookupList db.map k)).length ≠ 0 →
      (normTokens (lookupList (mergeUidPairs db pairs).map k)).length ≠ 0 := by
  induction pairs with
  | nil =>
      intro db k h
      exact h
  | cons p ps ih =>
      intro db k h
      exact ih (addUidPair db p.1 p.2).2 k (addUidPair_covered_mono db p.1 p.2 k h)

theorem foundCountOf_merge_mono (db : UidDb) (pairs : List (String × String)) :
    foundCountOf db.map ≤ foundCountOf (mergeUidPairs db pairs).map := by
  unfold foundCountOf
  refine List.countP_mono_left ?_
  intro k _ hk
  have h1 : (normTokens (lookupList db.map k)).length ≠ 0 := by
    simpa using hk
  have h2 := mergeUidPairs_covered_mono pairs db k h1
  simpa using h2

/-- C5: merging sweep results into the database and recomputing the
metadata never decreases `foundCount` relative to its pre-sweep value (the
hypothesis states that the stored `foundCount` was itself a coverage count,
which holds after any load or recompute), and afterwards
`foundCount + excludedTimeoutCount + excludedSpecialCount = targetCount`. -/
theorem sweep_merge_foundCount_monotone (db : UidDb) (pairs : List (String × String))
    (h : db.meta.foundCount ≤ foundCountOf db.map) :
    db.meta.foundCount ≤ (recomputeUidDbMeta (mergeUidPairs db pairs)).meta.foundCount ∧
    (recomputeUidDbMeta (mergeUidPairs db pairs)).meta.foundCount +
        (recomputeUidDbMeta (mergeUidPairs db pairs)).meta.excludedTimeoutCount +
        (recomputeUidDbMeta (mergeUidPairs db pairs)).meta.excludedSpecialCount
      = (recomputeUidDbMeta (mergeUidPairs db pairs)).meta.targetCount := by
  have hf := recomputeUidDbMeta_foundCount (mergeUidPairs db pairs)
  have ht := recomputeUidDbMeta_targetCount (mergeUidPairs db pairs)
  have hs := recomputeUidDbMeta_excludedSpecialCount (mergeUidPairs db pairs)
  have hto := recomputeUidDbMeta_excludedTimeoutCount (mergeUidPairs db pairs)
  constructor
  · rw [hf]
    exact le_trans h (foundCountOf_merge_mono db pairs)
  · rw [hf, ht, hs, hto]
    have hle : foundCountOf (mergeUidPairs db pairs).map
        ≤ getAllUidTargets.targets.length := List.countP_le_length _
    omega

theorem sweep_merge_foundCount_monotone_witness :
    defaultUidDb.meta.foundCount
        ≤ (recomputeUidDbMeta (mergeUidPairs defaultUidDb [])).meta.foundCount ∧
    (recomputeUidDbMeta (mergeUidPairs defaultUidDb [])).meta.foundCount +
        (recomputeUidDbMeta (mergeUidPairs defaultUidDb [])).meta.excludedTimeoutCount +
        (recomputeUidDbMeta (mergeUidPairs defaultUidDb [])).meta.excludedSpecialCount
      = (recomputeUidDbMeta (mergeUidPairs defaultUidDb [])).meta.targetCount :=
  sweep_merge_foundCount_monotone defaultUidDb [] (Nat.zero_le _)

theorem b64Alphabet_not_space :
    b64Alphabet.all (fun c => !jsSpace c) = true := by decide

theorem b64Alphabet_ne_eq :
    b64Alphabet.all (fun c => c != '=') = true := by decide

theorem b64Char_spec (i : Nat) :
    b64Char i ∈ b64Alphabet ∨ b64Char i = '?' := by
  unfold b64Char
  by_cases h : i < b64Alphabet.length
  · left
    rw [List.getD_eq_getElem _ _ h]
    exact List.getElem_mem _
  · right
    exact List.getD_eq_default _ _ (Nat.le_of_not_lt h)

theorem b64Char_not_space (i : Nat) : jsSpace (b64Char i) = false := by
  rcases b64Char_spec i with h | h
  · have := List.all_eq_true.mp b64Alphabet_not_space _ h
    simpa using this
  · rw [h]
    decide

theorem b64Char_ne_eq (i : Nat) : b64Char i ≠ '=' := by
  rcases b64Char_spec i with h | h
  · have := List.all_eq_true.mp b64Alphabet_ne_eq _ h
    simpa using this
  · rw [h]
    decide

theorem b64EncodeGroups_not_space :
    ∀ (n : Nat) (bs : List Nat), bs.length ≤ n →
      ∀ c ∈ b64EncodeGroups bs, jsSpace c = false := by
  intro n
  induction n with
  | zero =>
      intro bs h c hc
      have hb : bs = [] := List.eq_nil_of_length_eq_zero (Nat.le_zero.mp h)
      rw [hb] at hc
      simp [b64EncodeGroups] at hc
  | succ n ih =>
      intro bs h c hc
      rcases bs with _ | ⟨b0, _ | ⟨b1, _ | ⟨b2, rest⟩⟩⟩
      · simp [b64EncodeGroups] at hc
      · simp only [b64EncodeGroups, List.mem_cons, List.not_mem_nil, or_false] at hc
        rcases hc with rfl | rfl | rfl | rfl
        · exact b64Char_not_space _
        · exact b64Char_not_space _
        · decide
        · decide
      · simp only [b64EncodeGroups, List.mem_cons, List.not_mem_nil, or_false] at hc
        rcases hc with rfl | rfl | rfl | rfl
        · exact b64Char_not_space _
        · exact b64Char_not_space _
        · exact b64Char_not_space _
        · decide
      · simp only [b64EncodeGroups, List.mem_cons] at hc
        rcases hc with rfl | rfl | rfl | rfl | hc
        · exact b64Char_not_space _
        · exact b64Char_not_space _
        · exact b64Char_not_space _
        · exact b64Char_not_space _
        · refine ih rest ?_ c hc
          simp only [List.length_cons] at h
          omega

theorem sanitizeIdText_b64Encode (bs : List Nat) :
    sanitizeIdText (b64Encode bs) = b64Encode bs := by
  apply sanitizeIdText_of_no_space
  intro c hc
  exact b64EncodeGroups_not_space bs.length bs le_rfl c hc

theorem b64Encode_length (bs : List Nat) :
    (b64Encode bs).length = (b64EncodeGroups bs).length := rfl

theorem b64EncodeGroups_length_ge (bs : List Nat) (h : bs ≠ []) :
    4 ≤ (b64EncodeGroups bs).length := by
  rcases bs with _ | ⟨b0, _ | ⟨b1, _ | ⟨b2, rest⟩⟩⟩
  · exact absurd rfl h
  · simp [b64EncodeGroups]
  · simp [b64EncodeGroups]
  · simp only [b64EncodeGroups, List.length_cons]
    omega

theorem md5_length (msg : List Nat) : (md5 msg).length = 16 := by
  unfold md5 leBytes32
  simp

/-- The composition producing the ShortID of a 16-byte PublicToken, as the
`uuid8` path of `normalizeUuidOrUid` does: Base64-encode the bytes, then
run the ShortID chain on that text. -/
def uid3OfUidBytes (uidBytes : List Nat) : String :=
  shortStrFromUid16 (b64Encode uidBytes)

/-- The ShortID computation as claim C1 words it: the two rounds of the
128-bit digest applied to the raw PublicToken bytes, then Base64, first
three characters, remap.  (Second definition of the refinement pair; the
code hashes the Base64 text instead.) -/
def publicToShortSpecRawBytes (pt : List Nat) : String :=
  String.mk (((b64Encode (md5 (md5 pt ++ pt))).data.take 3).map mapShortChar)

/-- C1 (amended): for every 16-byte PublicToken, the ShortID is obtained by
`d1 = MD5(tb)`, `d2 = MD5(d1 ++ tb)`, Base64, first three characters,
remap — where `tb` is the UTF-8 byte sequence of the Base64 text of the
PublicToken, not the raw 16 bytes. -/
theorem publicToShort_hashes_base64_text (pt : List Nat) (h : pt.length = 16) :
    uid3OfUidBytes pt =
      String.mk (((b64Encode (md5 (md5 (utf8Bytes (b64Encode pt))
        ++ utf8Bytes (b64Encode pt)))).data.take 3).map mapShortChar) := by
  have hne : pt ≠ [] := by
    intro hnil
    rw [hnil] at h
    simp at h
  have h4 : 4 ≤ (b64Encode pt).length := by
    rw [b64Encode_length]
    exact b64EncodeGroups_length_ge pt hne
  unfold uid3OfUidBytes shortStrFromUid16 shortStrFromUid16WithDigest
  rw [sanitizeIdText_b64Encode]
  rw [if_neg (by omega)]
  have hmd : md5 (md5 (utf8Bytes (b64Encode pt)) ++ utf8Bytes (b64Encode pt)) ≠ [] := by
    intro hnil
    have := md5_length (md5 (utf8Bytes (b64Encode pt)) ++ utf8Bytes (b64Encode pt))
    rw [hnil] at this
    simp at this
  have h4b : 4 ≤ (b64Encode (md5 (md5 (utf8Bytes (b64Encode pt))
      ++ utf8Bytes (b64Encode pt)))).length := by
    rw [b64Encode_length]
    exact b64EncodeGroups_length_ge _ hmd
  rw [if_neg (by omega)]

theorem publicToShort_hashes_base64_text_witness :
    uid3OfUidBytes (List.replicate 16 0) =
      String.mk (((b64Encode (md5 (md5 (utf8Bytes (b64Encode (List.replicate 16 0)))
        ++ utf8Bytes (b64Encode (List.replicate 16 0))))).data.take 3).map mapShortChar) :=
  publicToShort_hashes_base64_text (List.replicate 16 0) (by decide)

/-- C1 counterexample: at the PublicToken derived from the all-zero
SecretToken, the code's ShortID is `"EtO"` (two MD5 rounds over the Base64
text of the token), while hashing the raw 16 PublicToken bytes as the claim
states yields `"oB4"` — so the claim's formula does not describe the
code. -/
theorem charIdx_lt (c : Char) :
    ∀ (l : List Char) (v : Nat), charIdx c l = some v → v < l.length := by
  intro l
  induction l with
  | nil =>
      intro v h
      simp [charIdx] at h
  | cons x xs ih =>
      intro v h
      simp only [charIdx] at h
      by_cases hx : x = c
      · rw [if_pos hx] at h
        obtain rfl : 0 = v := by injection h
        simp
      · rw [if_neg hx] at h
        rcases h2 : charIdx c xs with _ | w
        · rw [h2] at h
          simp at h
        · rw [h2] at h
          have hv : w + 1 = v := by simpa using h
          have := ih w h2
          simp only [List.length_cons]
          omega

theorem b64CharVal_lt (c : Char) (v : Nat) (h : b64CharVal c = some v) : v < 64 :=
  lt_of_lt_of_eq (charIdx_lt c b64Alphabet v h) (by decide)

theorem b64CharVal_b64Char : ∀ v < 64, b64CharVal (b64Char v) = some v := by decide

theorem b64Val_bound_a : ∀ b0 < 256, b0 / 4 < 64 := by
  intro b0 h
  omega

theorem b64Val_bound_b : ∀ b0 < 256, ∀ b1 < 256, b0 % 4 * 16 + b1 / 16 < 64 := by
  intro b0 h0 b1 h1
  omega

theorem b64Val_bound_c : ∀ b1 < 256, ∀ b2 < 256, b1 % 16 * 4 + b2 / 64 < 64 := by
  intro b1 h1 b2 h2
  omega

theorem b64Val_bound_d : ∀ b2 < 256, b2 % 64 < 64 := by
  intro b2 h
  omega

theorem stripTrailingEq_append (l1 l2 : List Char) (h : ∀ c ∈ l1, c ≠ '=') :
    stripTrailingEq (l1 ++ l2) = l1 ++ stripTrailingEq l2 := by
  have hdw : List.dropWhile (fun c => c == '=') l1.reverse = l1.reverse := by
    rcases hrev : l1.reverse with _ | ⟨x, xs⟩
    · rfl
    · rw [List.dropWhile_cons_of_neg]
      have hx : x ∈ l1 := by
        rw [← List.mem_reverse, hrev]
        exact List.mem_cons_self x xs
      simpa using h x hx
  unfold stripTrailingEq
  rw [List.reverse_append, List.dropWhile_append]
  by_cases he : (List.dropWhile (fun c => c == '=') l2.reverse).isEmpty
  · rw [if_pos he, hdw, List.reverse_reverse]
    have h2 : List.dropWhile (fun c => c == '=') l2.reverse = [] := by
      rwa [List.isEmpty_iff] at he
    rw [h2]
    simp
  · rw [if_neg he, List.reverse_append, List.reverse_reverse]

theorem b64EncodeGroups_roundtrip :
    ∀ (n : Nat) (bs : List Nat), bs.length ≤ n → (∀ b ∈ bs, b < 256) →
      (b64EncodeGroups bs).length % 4 = 0 ∧
      b64DecodeCore (stripTrailingEq (b64EncodeGroups bs)) = some bs := by
  intro n
  induction n with
  | zero =>
      intro bs h hb
      have hbs : bs = [] := List.eq_nil_of_length_eq_zero (Nat.le_zero.mp h)
      subst hbs
      exact ⟨rfl, rfl⟩
  | succ n ih =>
      intro bs h hb
      rcases bs with _ | ⟨b0, _ | ⟨b1, _ | ⟨b2, rest⟩⟩⟩
      · exact ⟨rfl, rfl⟩
      · have hb0 : b0 < 256 := hb b0 (by simp)
        have hs : stripTrailingEq (b64EncodeGroups [b0])
            = [b64Char (b0 / 4), b64Char (b0 % 4 * 16)] := by
          have := stripTrailingEq_append [b64Char (b0 / 4), b64Char (b0 % 4 * 16)]
            ['=', '='] (by
              intro c hc
              rcases List.mem_cons.mp hc with rfl | hc2
              · exact b64Char_ne_eq _
              · rw [List.mem_singleton.mp hc2]
                exact b64Char_ne_eq _)
          simpa [b64EncodeGroups] using this
        refine ⟨by simp [b64EncodeGroups], ?_⟩
        rw [hs]
        simp only [b64DecodeCore,
          b64CharVal_b64Char (b0 / 4) (b64Val_bound_a b0 hb0),
          b64CharVal_b64Char (b0 % 4 * 16) (by omega)]
        have harith : b0 / 4 * 4 + b0 % 4 * 16 / 16 = b0 := by omega
        rw [harith]
      · have hb0 : b0 < 256 := hb b0 (by simp)
        have hb1 : b1 < 256 := hb b1 (by simp)
        have hs : stripTrailingEq (b64EncodeGroups [b0, b1])
            = [b64Char (b0 / 4), b64Char (b0 % 4 * 16 + b1 / 16),
               b64Char (b1 % 16 * 4)] := by
          have := stripTrailingEq_append [b64Char (b0 / 4),
            b64Char (b0 % 4 * 16 + b1 / 16), b64Char (b1 % 16 * 4)] ['='] (by
              intro c hc
              rcases List.mem_cons.mp hc with rfl | hc2
              · exact b64Char_ne_eq _
              rcases List.mem_cons.mp hc2 with rfl | hc3
              · exact b64Char_ne_eq _
              · rw [List.mem_singleton.mp hc3]
                exact b64Char_ne_eq _)
          simpa [b64EncodeGroups] using this
        refine ⟨by simp [b64EncodeGroups], ?_⟩
        rw [hs]
        simp only [b64DecodeCore,
          b64CharVal_b64Char (b0 / 4) (b64Val_bound_a b0 hb0),
          b64CharVal_b64Char (b0 % 4 * 16 + b1 / 16) (b64Val_bound_b b0 hb0 b1 hb1),
          b64CharVal_b64Char (b1 % 16 * 4) (by omega)]
        have harith1 : b0 / 4 * 4 + (b0 % 4 * 16 + b1 / 16) / 16 = b0 := by omega
        have harith2 : (b0 % 4 * 16 + b1 / 16) % 16 * 16 + b1 % 16 * 4 / 4 = b1 := by
          omega
        rw [harith1, harith2]
      · have hb0 : b0 < 256 := hb b0 (by simp)
        have hb1 : b1 < 256 := hb b1 (by simp)
        have hb2 : b2 < 256 := hb b2 (by simp)
        obtain ⟨ih1, ih2⟩ := ih rest (by
            simp only [List.length_cons] at h
            omega)
          (fun b hbm => hb b (by simp [hbm]))
        have hgrp : b64EncodeGroups (b0 :: b1 :: b2 :: rest)
            = [b64Char (b0 / 4), b64Char (b0 % 4 * 16 + b1 / 16),
               b64Char (b1 % 16 * 4 + b2 / 64), b64Char (b2 % 64)]
              ++ b64EncodeGroups rest := rfl
        have hs : stripTrailingEq (b64EncodeGroups (b0 :: b1 :: b2 :: rest))
            = [b64Char (b0 / 4), b64Char (b0 % 4 * 16 + b1 / 16),
               b64Char (b1 % 16 * 4 + b2 / 64), b64Char (b2 % 64)]
              ++ stripTrailingEq (b64EncodeGroups rest) := by
          rw [hgrp]
          refine stripTrailingEq_append _ _ ?_
          intro c hc
          rcases List.mem_cons.mp hc with rfl | hc2
          · exact b64Char_ne_eq _
          rcases List.mem_cons.mp hc2 with rfl | hc3
          · exact b64Char_ne_eq _
          rcases List.mem_cons.mp hc3 with rfl | hc4
          · exact b64Char_ne_eq _
          · rw [List.mem_singleton.mp hc4]
            exact b64Char_ne_eq _
        simp only [List.cons_append, List.nil_append] at hs
        constructor
        · rw [hgrp]
          simp only [List.length_append, List.length_cons, List.length_nil]
          omega
        · rw [hs]
          simp only [b64DecodeCore,
            b64CharVal_b64Char (b0 / 4) (b64Val_bound_a b0 hb0),
            b64CharVal_b64Char (b0 % 4 * 16 + b1 / 16) (b64Val_bound_b b0 hb0 b1 hb1),
            b64CharVal_b64Char (b1 % 16 * 4 + b2 / 64) (b64Val_bound_c b1 hb1 b2 hb2),
            b64CharVal_b64Char (b2 % 64) (b64Val_bound_d b2 hb2), ih2]
          have harith1 : b0 / 4 * 4 + (b0 % 4 * 16 + b1 / 16) / 16 = b0 := by omega
          have harith2 : (b0 % 4 * 16 + b1 / 16) % 16 * 16
              + (b1 % 16 * 4 + b2 / 64) / 4 = b1 := by omega
          have harith3 : (b1 % 16 * 4 + b2 / 64) % 4 * 64 + b2 % 64 = b2 := by omega
          rw [harith1, harith2, harith3]

theorem b64Decode_b64Encode (bs : List Nat) (h : ∀ b ∈ bs, b < 256) :
    b64Decode (b64Encode bs) = some bs := by
  obtain ⟨h1, h2⟩ := b64EncodeGroups_roundtrip bs.length bs le_rfl h
  unfold b64Decode
  rw [if_neg (by
    rw [b64Encode_length]
    omega)]
  exact h2

theorem b64Encode_injOn (a b : List Nat) (ha : ∀ x ∈ a, x < 256)
    (hb : ∀ x ∈ b, x < 256) (h : b64Encode a = b64Encode b) : a = b := by
  have h1 := b64Decode_b64Encode a ha
  rw [h, b64Decode_b64Encode b hb] at h1
  injection h1 with h2
  exact h2.symm

theorem b64DecodeCore_lt256 :
    ∀ (n : Nat) (cs : List Char) (bs : List Nat), cs.length ≤ n →
      b64DecodeCore cs = some bs → ∀ b ∈ bs, b < 256 := by
  intro n
  induction n with
  | zero =>
      intro cs bs h hdec b hb
      have hcs : cs = [] := List.eq_nil_of_length_eq_zero (Nat.le_zero.mp h)
      subst hcs
      simp only [b64DecodeCore] at hdec
      obtain rfl : ([] : List Nat) = bs := by injection hdec
      simp at hb
  | succ n ih =>
      intro cs bs h hdec b hb
      rcases cs with _ | ⟨c0, _ | ⟨c1, _ | ⟨c2, _ | ⟨c3, rest⟩⟩⟩⟩
      · simp only [b64DecodeCore] at hdec
        obtain rfl : ([] : List Nat) = bs := by injection hdec
        simp at hb
      · simp [b64DecodeCore] at hdec
      · rcases h0 : b64CharVal c0 with _ | b0 <;> rcases h1 : b64CharVal c1 with _ | b1 <;>
          simp [b64DecodeCore, h0, h1] at hdec
        subst hdec
        have hb0 := b64CharVal_lt c0 b0 h0
        have hb1 := b64CharVal_lt c1 b1 h1
        rcases List.mem_singleton.mp hb with rfl
        omega
      · rcases h0 : b64CharVal c0 with _ | b0 <;> rcases h1 : b64CharVal c1 with _ | b1 <;>
          rcases h2 : b64CharVal c2 with _ | b2 <;>
          simp [b64DecodeCore, h0, h1, h2] at hdec
        subst hdec
        have hb0 := b64CharVal_lt c0 b0 h0
        have hb1 := b64CharVal_lt c1 b1 h1
        have hb2 := b64CharVal_lt c2 b2 h2
        rcases List.mem_cons.mp hb with rfl | hb'
        · omega
        · rcases List.mem_singleton.mp hb' with rfl
          omega
      · rcases h0 : b64CharVal c0 with _ | b0 <;> rcases h1 : b64CharVal c1 with _ | b1 <;>
          rcases h2 : b64CharVal c2 with _ | b2 <;> rcases h3 : b64CharVal c3 with _ | b3 <;>
          rcases ht : b64DecodeCore rest with _ | tail <;>
          simp [b64DecodeCore, h0, h1, h2, h3, ht] at hdec
        subst hdec
        have hb0 := b64CharVal_lt c0 b0 h0
        have hb1 := b64CharVal_lt c1 b1 h1
        have hb2 := b64CharVal_lt c2 b2 h2
        have hb3 := b64CharVal_lt c3 b3 h3
        rcases List.mem_cons.mp hb with rfl | hb'
        · omega
        rcases List.mem_cons.mp hb' with rfl | hb2'
        · omega
        rcases List.mem_cons.mp hb2' with rfl | hb3'
        · omega
        · refine ih rest tail ?_ ht b hb3'
          simp only [List.length_cons] at h
          omega

theorem b64Decode_lt256 (s : String) (bs : List Nat)
    (h : b64Decode s = some bs) : ∀ b ∈ bs, b < 256 := by
  unfold b64Decode at h
  by_cases hlen : s.length % 4 ≠ 0
  · rw [if_pos hlen] at h
    cases h
  · rw [if_neg hlen] at h
    exact b64DecodeCore_lt256 (stripTrailingEq s.data).length _ bs le_rfl h

theorem decodedBytes_lt256 (raw : String) (bs : List Nat)
    (h : decodedBytes raw = some bs) : ∀ b ∈ bs, b < 256 := by
  unfold decodedBytes at h
  by_cases hc : (b64Decode raw).isNone && raw.length % 4 != 0
  · rw [if_pos hc] at h
    exact b64Decode_lt256 _ _ h
  · rw [if_neg hc] at h
    exact b64Decode_lt256 _ _ h

theorem computeUid_of_len8 (bs : List Nat) (h : bs.length = 8) :
    computeUidBytesFromUuidBytes bs
      = some (bs ++ [0, 0, 0, 0] ++ beBytes32 (crc32 bs)) := by
  unfold computeUidBytesFromUuidBytes
  rw [if_neg (by omega)]

theorem beBytes32_lt256 (v : Nat) : ∀ b ∈ beBytes32 v, b < 256 := by
  intro b hb
  simp only [beBytes32, List.mem_cons, List.not_mem_nil, or_false] at hb
  rcases hb with rfl | rfl | rfl | rfl <;> omega

theorem normalizeUuidOrUid_some (s : String) (bs : List Nat)
    (h0 : (sanitizeIdText s).length ≠ 0)
    (hdec : decodedBytes (sanitizeIdText s) = some bs) :
    normalizeUuidOrUid s = classifyDecoded bs := by
  unfold normalizeUuidOrUid
  rw [if_neg h0, hdec]

theorem classifyDecoded_len8 (bs : List Nat) (h : bs.length = 8) :
    classifyDecoded bs =
      { valid := true, kind := "uuid8", uuid8 := b64Encode bs,
        uid16 := b64Encode (bs ++ [0, 0, 0, 0] ++ beBytes32 (crc32 bs)),
        uid3 := shortStrFromUid16
          (b64Encode (bs ++ [0, 0, 0, 0] ++ beBytes32 (crc32 bs))) } := by
  unfold classifyDecoded
  rw [if_pos h, computeUid_of_len8 bs h]

theorem classifyDecoded_len16 (bs : List Nat) (h : bs.length = 16) :
    classifyDecoded bs =
      { valid := true, kind := "uid16", uuid8 := b64Encode (bs.take 8),
        uid16 := b64Encode (bs.take 8 ++ [0, 0, 0, 0] ++ beBytes32 (crc32 (bs.take 8))),
        uid3 := shortStrFromUid16
          (b64Encode (bs.take 8 ++ [0, 0, 0, 0] ++ beBytes32 (crc32 (bs.take 8)))),
        uidMatches :=
          (b64Encode (bs.take 8 ++ [0, 0, 0, 0]
            ++ beBytes32 (crc32 (bs.take 8)))).length != 0
          && b64Encode (bs.take 8 ++ [0, 0, 0, 0] ++ beBytes32 (crc32 (bs.take 8)))
            == b64Encode bs } := by
  unfold classifyDecoded
  rw [if_neg (by omega), if_pos h,
    computeUid_of_len8 (bs.take 8) (by simp [List.length_take, h])]

theorem classifyDecoded_len_other (bs : List Nat) (h8 : bs.length ≠ 8)
    (h16 : bs.length ≠ 16) :
    classifyDecoded bs = { valid := false, error := "length" } := by
  unfold classifyDecoded
  rw [if_neg h8, if_neg h16]

/-- C8 (amended): for every accepted input, decoded length 8 yields a valid
SecretToken record; decoded length 16 yields a valid PublicToken record
whose `uidMatches` flag is true exactly when the WHOLE 16 bytes equal the
PublicToken recomputed from the first 8 bytes — i.e. bytes 8-11 are zero
AND the CRC field matches, not the CRC field alone; any other decoded
length fails with the length error. -/
theorem decodeAny_length_classification (s : String) (bs : List Nat)
    (h0 : (sanitizeIdText s).length ≠ 0)
    (hdec : decodedBytes (sanitizeIdText s) = some bs) :
    (bs.length = 8 →
      (normalizeUuidOrUid s).valid = true ∧
      (normalizeUuidOrUid s).kind = "uuid8" ∧
      (normalizeUuidOrUid s).uuid8 = b64Encode bs) ∧
    (bs.length = 16 →
      (normalizeUuidOrUid s).valid = true ∧
      (normalizeUuidOrUid s).kind = "uid16" ∧
      ((normalizeUuidOrUid s).uidMatches = true ↔
        bs = bs.take 8 ++ [0, 0, 0, 0] ++ beBytes32 (crc32 (bs.take 8)))) ∧
    (bs.length ≠ 8 → bs.length ≠ 16 →
      normalizeUuidOrUid s = { valid := false, error := "length" }) := by
  have hblt : ∀ b ∈ bs, b < 256 := decodedBytes_lt256 _ _ hdec
  have hmain := normalizeUuidOrUid_some s bs h0 hdec
  refine ⟨?_, ?_, ?_⟩
  · intro h8
    rw [hmain, classifyDecoded_len8 bs h8]
    exact ⟨rfl, rfl, rfl⟩
  · intro h16
    rw [hmain, classifyDecoded_len16 bs h16]
    have hUlt : ∀ x ∈ bs.take 8 ++ [0, 0, 0, 0] ++ beBytes32 (crc32 (bs.take 8)),
        x < 256 := by
      intro x hx
      rcases List.mem_append.mp hx with hx1 | hx2
      · rcases List.mem_append.mp hx1 with hx3 | hx4
        · exact hblt x (List.mem_of_mem_take hx3)
        · simp only [List.mem_cons, List.not_mem_nil, or_false] at hx4
          rcases hx4 with rfl | rfl | rfl | rfl <;> omega
      · exact beBytes32_lt256 _ x hx2
    have hUne : bs.take 8 ++ [0, 0, 0, 0] ++ beBytes32 (crc32 (bs.take 8)) ≠ [] := by
      intro hc
      have := congrArg List.length hc
      simp at this
    have hlen4 : 4 ≤ (b64Encode (bs.take 8 ++ [0, 0, 0, 0]
        ++ beBytes32 (crc32 (bs.take 8)))).length := by
      rw [b64Encode_length]
      exact b64EncodeGroups_length_ge _ hUne
    refine ⟨rfl, rfl, ?_⟩
    show ((b64Encode _).length != 0 && b64Encode _ == b64Encode bs) = true ↔ _
    rw [Bool.and_eq_true, bne_iff_ne, beq_iff_eq]
    constructor
    · intro hc
      exact (b64Encode_injOn _ _ hUlt hblt hc.2).symm
    · intro hc
      exact ⟨by omega, by rw [← hc]⟩
  · intro h8 h16
    rw [hmain, classifyDecoded_len_other bs h8 h16]

theorem decodeAny_length_classification_witness :
    (normalizeUuidOrUid "AAAAAAAAAAA=").valid = true ∧
    (normalizeUuidOrUid "AAAAAAAAAAA=").kind = "uuid8" ∧
    (normalizeUuidOrUid "AAAAAAAAAAA=").uuid8
      = b64Encode [0, 0, 0, 0, 0, 0, 0, 0] :=
  (decodeAny_length_classification "AAAAAAAAAAA=" [0, 0, 0, 0, 0, 0, 0, 0]
    (by decide) (by decide)).1 (by decide)

/-- C8 counterexample: the 16-byte token whose bytes 8-11 are `[0,0,0,1]`
but whose CRC field (bytes 12-15) is the correct big-endian CRC-32 of its
first 8 bytes decodes as a PublicToken with `uidMatches = false`, although
the claim ("verified is true exactly when the embedded CRC field matches
recomputation") demands true: the code compares all 16 bytes, including the
zero filler. -/
theorem decodeAny_verified_crc_only_counterexample :
    b64Decode "AAAAAAAAAAAAAAABZSLfaQ=="
        = some [0, 0, 0, 0, 0, 0, 0, 0, 0, 0, 0, 1, 101, 34, 223, 105] ∧
    List.drop 12 [0, 0, 0, 0, 0, 0, 0, 0, 0, 0, 0, 1, 101, 34, 223, 105]
        = beBytes32 (crc32 (List.take 8
            [0, 0, 0, 0, 0, 0, 0, 0, 0, 0, 0, 1, 101, 34, 223, 105])) ∧
    (normalizeUuidOrUid "AAAAAAAAAAAAAAABZSLfaQ==").valid = true ∧
    (normalizeUuidOrUid "AAAAAAAAAAAAAAABZSLfaQ==").kind = "uid16" ∧
    (normalizeUuidOrUid "AAAAAAAAAAAAAAABZSLfaQ==").uidMatches = false :=
  ⟨by decide, by decide, by decide, by decide, by decide⟩

theorem publicToShort_raw_byte_hash_counterexample :
    computeUidBytesFromUuidBytes [0, 0, 0, 0, 0, 0, 0, 0]
        = some [0, 0, 0, 0, 0, 0, 0, 0, 0, 0, 0, 0, 101, 34, 223, 105] ∧
    uid3OfUidBytes [0, 0, 0, 0, 0, 0, 0, 0, 0, 0, 0, 0, 101, 34, 223, 105] = "EtO" ∧
    publicToShortSpecRawBytes [0, 0, 0, 0, 0, 0, 0, 0, 0, 0, 0, 0, 101, 34, 223, 105]
        = "oB4" ∧
    uid3OfUidBytes [0, 0, 0, 0, 0, 0, 0, 0, 0, 0, 0, 0, 101, 34, 223, 105]
      ≠ publicToShortSpecRawBytes [0, 0, 0, 0, 0, 0, 0, 0, 0, 0, 0, 0, 101, 34, 223, 105] :=
  ⟨by decide, by decide, by decide, by decide⟩



theorem mapShortChar_not_space (c : Char) (h : jsSpace c = false) :
    jsSpace (mapShortChar c) = false := by
  unfold mapShortChar
  split_ifs <;> first | decide | exact h

theorem shortStrFromUid16WithDigest_sanitized (hash : List Nat → List Nat)
    (t : String) :
    sanitizeIdText (shortStrFromUid16WithDigest hash t)
      = shortStrFromUid16WithDigest hash t := by
  unfold shortStrFromUid16WithDigest
  by_cases h1 : (sanitizeIdText t).length = 0
  · rw [if_pos h1]
    decide
  · rw [if_neg h1]
    by_cases h2 : (b64Encode (hash (hash (utf8Bytes (sanitizeIdText t))
        ++ utf8Bytes (sanitizeIdText t)))).length < 3
    · rw [if_pos h2]
      decide
    · rw [if_neg h2]
      apply sanitizeIdText_of_no_space
      intro c hc
      have hc1 : c ∈ ((b64Encode (hash (hash (utf8Bytes (sanitizeIdText t))
          ++ utf8Bytes (sanitizeIdText t)))).data.take 3).map mapShortChar := hc
      rcases List.mem_map.mp hc1 with ⟨c0, hc0, rfl⟩
      have hc2 : c0 ∈ b64EncodeGroups (hash (hash (utf8Bytes (sanitizeIdText t))
          ++ utf8Bytes (sanitizeIdText t))) := List.mem_of_mem_take hc0
      exact mapShortChar_not_space c0 (b64EncodeGroups_not_space _ _ le_rfl c0 hc2)

theorem normalizeUuidOrUid_valid_cases (s : String) :
    (normalizeUuidOrUid s).valid = false ∨
      ∃ bs, normalizeUuidOrUid s = classifyDecoded bs := by
  by_cases h0 : (sanitizeIdText s).length = 0
  · left
    unfold normalizeUuidOrUid
    rw [if_pos h0]
  · rcases hdec : decodedBytes (sanitizeIdText s) with _ | bs
    · left
      unfold normalizeUuidOrUid
      rw [if_neg h0, hdec]
    · right
      exact ⟨bs, normalizeUuidOrUid_some s bs h0 hdec⟩

theorem classifyDecoded_uid3_sanitized (bs : List Nat)
    (h : (classifyDecoded bs).valid = true) :
    sanitizeIdText (classifyDecoded bs).uid3 = (classifyDecoded bs).uid3 := by
  by_cases h8 : bs.length = 8
  · rw [classifyDecoded_len8 bs h8]
    exact shortStrFromUid16WithDigest_sanitized md5 _
  · by_cases h16 : bs.length = 16
    · rw [classifyDecoded_len16 bs h16]
      exact shortStrFromUid16WithDigest_sanitized md5 _
    · rw [classifyDecoded_len_other bs h8 h16] at h
      exact absurd h (by decide)

theorem getUidShortForUuid8_sanitized (t : String) :
    sanitizeIdText (getUidShortForUuid8 t) = getUidShortForUuid8 t := by
  unfold getUidShortForUuid8
  by_cases hv : (normalizeUuidOrUid t).valid = true
  · rw [if_neg (by simp [hv])]
    rcases normalizeUuidOrUid_valid_cases t with h | ⟨bs, heq⟩
    · rw [hv] at h
      exact absurd h (by decide)
    · rw [heq]
      exact classifyDecoded_uid3_sanitized bs (heq ▸ hv)
  · have hvf : (normalizeUuidOrUid t).valid = false := by simpa using hv
    rw [if_pos (by rw [hvf]; rfl)]
    decide

theorem normalizeUuidOrUid_sanitize (t : String) :
    normalizeUuidOrUid (sanitizeIdText t) = normalizeUuidOrUid t := by
  unfold normalizeUuidOrUid
  rw [sanitizeIdText_idem]

theorem getUidShortForUuid8_sanitizeArg (t : String) :
    getUidShortForUuid8 (sanitizeIdText t) = getUidShortForUuid8 t := by
  unfold getUidShortForUuid8
  rw [normalizeUuidOrUid_sanitize]

/-- Invariant of one per-ShortID token list: no duplicates, every token
sanitize-fixed and non-empty. -/
def CleanTokens (l : List String) : Prop :=
  l.Nodup ∧ ∀ v ∈ l, sanitizeIdText v = v ∧ v.length ≠ 0

/-- The token-set invariant over every list reachable from the map. -/
def DbClean (m : UidMap) : Prop := ∀ k, CleanTokens (lookupList m k)

theorem CleanTokens_nil : CleanTokens [] :=
  ⟨List.nodup_nil, fun v hv => absurd hv (List.not_mem_nil v)⟩

theorem CleanTokens_normTokens_fix (l : List String) (h : CleanTokens l) :
    normTokens l = l :=
  normTokens_of_sanitized l h.2

theorem CleanTokens_append_val (l : List String) (val : String)
    (hl : CleanTokens l) (hval : sanitizeIdText val = val)
    (hne : val.length ≠ 0) (hmem : val ∉ l) : CleanTokens (l ++ [val]) := by
  refine ⟨?_, ?_⟩
  · rw [List.nodup_append]
    exact ⟨hl.1, List.nodup_singleton val, fun a ha hb =>
      hmem (by rwa [List.mem_singleton.mp hb] at ha)⟩
  · intro w hw
    rcases List.mem_append.mp hw with hw1 | hw2
    · exact hl.2 w hw1
    · rw [List.mem_singleton.mp hw2]
      exact ⟨hval, hne⟩

theorem jsUniq_aux (l : List String) :
    ∀ acc : List String, acc.Nodup →
      (l.foldl (fun acc v => if v ∈ acc then acc else acc ++ [v]) acc).Nodup ∧
      ∀ v ∈ l.foldl (fun acc v => if v ∈ acc then acc else acc ++ [v]) acc,
        v ∈ acc ∨ v ∈ l := by
  induction l with
  | nil =>
      intro acc h
      exact ⟨h, fun v hv => Or.inl hv⟩
  | cons x xs ih =>
      intro acc h
      simp only [List.foldl_cons]
      by_cases hx : x ∈ acc
      · rw [if_pos hx]
        obtain ⟨h1, h2⟩ := ih acc h
        exact ⟨h1, fun v hv => (h2 v hv).imp id (List.mem_cons_of_mem x)⟩
      · rw [if_neg hx]
        have hacc : (acc ++ [x]).Nodup := by
          rw [List.nodup_append]
          exact ⟨h, List.nodup_singleton x, fun a ha hb =>
            hx (by rwa [List.mem_singleton.mp hb] at ha)⟩
        obtain ⟨h1, h2⟩ := ih (acc ++ [x]) hacc
        refine ⟨h1, fun v hv => ?_⟩
        rcases h2 v hv with hv1 | hv2
        · rcases List.mem_append.mp hv1 with hv3 | hv4
          · exact Or.inl hv3
          · exact Or.inr (by rw [List.mem_singleton.mp hv4]; exact List.mem_cons_self x xs)
        · exact Or.inr (List.mem_cons_of_mem x hv2)

theorem jsUniq_clean (l : List String)
    (h : ∀ v ∈ l, sanitizeIdText v = v ∧ v.length ≠ 0) :
    CleanTokens (jsUniq l) := by
  obtain ⟨h1, h2⟩ := jsUniq_aux l [] List.nodup_nil
  refine ⟨h1, fun v hv => ?_⟩
  rcases h2 v hv with hv1 | hv2
  · exact absurd hv1 (List.not_mem_nil v)
  · exact h v hv2

theorem uidListFromRaw_clean (r : RawVal) :
    ∀ v ∈ uidListFromRaw r, sanitizeIdText v = v ∧ v.length ≠ 0 := by
  intro v hv
  cases r with
  | nullv => exact absurd hv (List.not_mem_nil v)
  | arr l => exact normTokens_mem l v hv
  | str s =>
      simp only [uidListFromRaw] at hv
      by_cases h0 : (sanitizeIdText s).length = 0
      · rw [if_pos h0] at hv
        exact absurd hv (List.not_mem_nil v)
      · rw [if_neg h0] at hv
        rw [List.mem_singleton.mp hv]
        exact ⟨sanitizeIdText_idem s, h0⟩

theorem cleanUidDbMap_aux (raw : List (String × RawVal)) :
    ∀ acc : UidMap, DbClean acc → DbClean (raw.foldl cleanEntryStep acc) := by
  induction raw with
  | nil =>
      intro acc h
      exact h
  | cons e rest ih =>
      intro acc h
      rw [List.foldl_cons]
      apply ih
      simp only [cleanEntryStep]
      by_cases hk : (normalizeUidKey e.1).length ≠ 3
      · rw [if_pos hk]
        exact h
      · rw [if_neg hk]
        by_cases hl : (uidListFromRaw e.2).length = 0
        · rw [if_pos hl]
          exact h
        · rw [if_neg hl]
          intro k
          rw [lookupList_setEntry]
          by_cases hkk : k = normalizeUidKey e.1
          · rw [if_pos hkk]
            exact jsUniq_clean _ (uidListFromRaw_clean e.2)
          · rw [if_neg hkk]
            exact h k

theorem cleanUidDbMap_DbClean (raw : List (String × RawVal)) :
    DbClean (cleanUidDbMap raw) :=
  cleanUidDbMap_aux raw [] (fun _ => CleanTokens_nil)

theorem recompute_DbClean (db : UidDb) (h : DbClean db.map) :
    DbClean (recomputeUidDbMeta db).map := by
  intro k
  rcases recomputeUidDbMeta_lookup db k with hr | hr
  · rw [hr]
    exact h k
  · rw [hr, CleanTokens_normTokens_fix _ (h k)]
    exact h k

theorem recompute_lookup_sub (db : UidDb) (h : DbClean db.map) :
    ∀ k v, v ∈ lookupList (recomputeUidDbMeta db).map k →
      v ∈ lookupList db.map k := by
  intro k v hv
  rcases recomputeUidDbMeta_lookup db k with hr | hr
  · rw [hr] at hv
    exact hv
  · rw [hr, CleanTokens_normTokens_fix _ (h k)] at hv
    exact hv

theorem recompute_lookup_of_clean (db : UidDb) (h : DbClean db.map) (k : String) :
    lookupList (recomputeUidDbMeta db).map k = lookupList db.map k := by
  rcases recomputeUidDbMeta_lookup db k with hr | hr
  · exact hr
  · rw [hr, CleanTokens_normTokens_fix _ (h k)]

theorem loadUidDbFromParsed_DbClean (rawMap : List (String × RawVal))
    (meta0 : UidMeta) : DbClean (loadUidDbFromParsed rawMap meta0).map := by
  unfold loadUidDbFromParsed
  exact recompute_DbClean _ (fun k => by
    rw [UidDb_mk_map]
    exact cleanUidDbMap_DbClean rawMap k)

theorem addUidPair_ok_map (db : UidDb) (uid3 uuid8 : String)
    (hk : (normalizeUidKey uid3).length = 3)
    (hv : (sanitizeIdText uuid8).length ≠ 0)
    (hmem : sanitizeIdText uuid8 ∉ lookupList db.map (normalizeUidKey uid3)) :
    (addUidPair db uid3 uuid8).2.map
      = setEntry db.map (normalizeUidKey uid3)
          (lookupList db.map (normalizeUidKey uid3) ++ [sanitizeIdText uuid8]) := by
  rw [addUidPair_ok db uid3 uuid8 hk hv hmem]

theorem addUidPair_DbClean (db : UidDb) (u w : String) (h : DbClean db.map) :
    DbClean (addUidPair db u w).2.map := by
  by_cases hok : (normalizeUidKey u).length = 3 ∧ (sanitizeIdText w).length ≠ 0 ∧
      sanitizeIdText w ∉ lookupList db.map (normalizeUidKey u)
  · intro k
    rw [addUidPair_ok_map db u w hok.1 hok.2.1 hok.2.2, lookupList_setEntry]
    by_cases hkk : k = normalizeUidKey u
    · rw [if_pos hkk]
      exact CleanTokens_append_val _ _ (h _) (sanitizeIdText_idem w) hok.2.1 hok.2.2
    · rw [if_neg hkk]
      exact h k
  · rw [addUidPair_noop db u w hok]
    exact h

theorem addUidPair_lookup_mem (db : UidDb) (u w : String) (k v : String)
    (hv : v ∈ lookupList (addUidPair db u w).2.map k) :
    v ∈ lookupList db.map k ∨
      (k = normalizeUidKey u ∧ v = sanitizeIdText w ∧
        (normalizeUidKey u).length = 3) := by
  by_cases hok : (normalizeUidKey u).length = 3 ∧ (sanitizeIdText w).length ≠ 0 ∧
      sanitizeIdText w ∉ lookupList db.map (normalizeUidKey u)
  · rw [addUidPair_ok_map db u w hok.1 hok.2.1 hok.2.2, lookupList_setEntry] at hv
    by_cases hkk : k = normalizeUidKey u
    · rw [if_pos hkk] at hv
      rcases List.mem_append.mp hv with h1 | h2
      · left
        rw [hkk]
        exact h1
      · right
        exact ⟨hkk, List.mem_singleton.mp h2, hok.1⟩
    · rw [if_neg hkk] at hv
      exact Or.inl hv
  · rw [addUidPair_noop db u w hok] at hv
    exact Or.inl hv

theorem mergeUidPairs_DbClean (pairs : List (String × String)) :
    ∀ db : UidDb, DbClean db.map → DbClean (mergeUidPairs db pairs).map := by
  induction pairs with
  | nil =>
      intro db h
      exact h
  | cons p ps ih =>
      intro db h
      exact ih ((addUidPair db p.1 p.2).2) (addUidPair_DbClean db p.1 p.2 h)

theorem processImportPair_invalid (db : UidDb) (c : ImportCounts)
    (p : String × String) (hv : (normalizeUuidOrUid p.2).valid = false) :
    processImportPair (db, c) p = (db, { c with invalid := c.invalid + 1 }) := by
  unfold processImportPair
  rw [if_pos (by rw [hv]; rfl)]

theorem processImportPair_mismatch (db : UidDb) (c : ImportCounts)
    (p : String × String) (hv : (normalizeUuidOrUid p.2).valid = true)
    (hs : getUidShortForUuid8 (normalizeUuidOrUid p.2).uuid8 ≠ p.1) :
    processImportPair (db, c) p = (db, { c with mismatch := c.mismatch + 1 }) := by
  unfold processImportPair
  rw [if_neg (by rw [hv]; decide), if_pos hs]

theorem processImportPair_matched (db : UidDb) (c : ImportCounts)
    (p : String × String) (hv : (normalizeUuidOrUid p.2).valid = true)
    (hs : getUidShortForUuid8 (normalizeUuidOrUid p.2).uuid8 = p.1) :
    processImportPair (db, c) p
      = ((addUidPair db p.1 (normalizeUuidOrUid p.2).uuid8).2,
         if (addUidPair db p.1 (normalizeUuidOrUid p.2).uuid8).1 then
           { c with added := c.added + 1 }
         else { c with duplicate := c.duplicate + 1 }) := by
  unfold processImportPair
  rw [if_neg (by rw [hv]; decide), if_neg (fun hc => hc hs)]
  show (if (addUidPair db p.1 (normalizeUuidOrUid p.2).uuid8).1 = true then
      ((addUidPair db p.1 (normalizeUuidOrUid p.2).uuid8).2,
       { c with added := c.added + 1 })
    else
      ((addUidPair db p.1 (normalizeUuidOrUid p.2).uuid8).2,
       { c with duplicate := c.duplicate + 1 })) = _
  by_cases hb : (addUidPair db p.1 (normalizeUuidOrUid p.2).uuid8).1 = true
  · rw [if_pos hb, if_pos hb]
  · rw [if_neg hb, if_neg hb]

theorem processImportPair_fold_props (pairs : List (String × String)) :
    ∀ (db : UidDb) (c : ImportCounts), DbClean db.map →
      DbClean (pairs.foldl processImportPair (db, c)).1.map ∧
      ∀ k v, v ∈ lookupList (pairs.foldl processImportPair (db, c)).1.map k →
        v ∈ lookupList db.map k ∨ getUidShortForUuid8 v = k := by
  induction pairs with
  | nil =>
      intro db c h
      exact ⟨h, fun k v hv => Or.inl hv⟩
  | cons p ps ih =>
      intro db c h
      rw [List.foldl_cons]
      by_cases hval : (normalizeUuidOrUid p.2).valid = true
      · by_cases hsid : getUidShortForUuid8 (normalizeUuidOrUid p.2).uuid8 = p.1
        · rw [processImportPair_matched db c p hval hsid]
          obtain ⟨ih1, ih2⟩ := ih (addUidPair db p.1 (normalizeUuidOrUid p.2).uuid8).2
            (if (addUidPair db p.1 (normalizeUuidOrUid p.2).uuid8).1 then
               { c with added := c.added + 1 }
             else { c with duplicate := c.duplicate + 1 })
            (addUidPair_DbClean db p.1 _ h)
          refine ⟨ih1, fun k v hv => ?_⟩
          rcases ih2 k v hv with hm | hshort
          · rcases addUidPair_lookup_mem db p.1 _ k v hm with hold | ⟨hkk, hvv, hk3⟩
            · exact Or.inl hold
            · right
              rw [hvv, getUidShortForUuid8_sanitizeArg, hsid, hkk]
              have hfix : sanitizeIdText p.1 = p.1 := by
                rw [← hsid]
                exact getUidShortForUuid8_sanitized _
              simp only [normalizeUidKey] at hk3 ⊢
              rw [hfix] at hk3 ⊢
              by_cases hp : p.1.length = 3
              · rw [if_pos hp]
              · rw [if_neg hp] at hk3
                exact absurd hk3 (by decide)
          · exact Or.inr hshort
        · rw [processImportPair_mismatch db c p hval hsid]
          exact ih db _ h
      · have hvf : (normalizeUuidOrUid p.2).valid = false := by simpa using hval
        rw [processImportPair_invalid db c p hvf]
        exact ih db _ h

theorem importProcessPairs_props (db : UidDb) (pairs : List (String × String))
    (h : DbClean db.map) :
    DbClean (importProcessPairs db pairs).1.map ∧
    ∀ k v, v ∈ lookupList (importProcessPairs db pairs).1.map k →
      v ∈ lookupList db.map k ∨ getUidShortForUuid8 v = k :=
  processImportPair_fold_props pairs db {} h

theorem importUidDbTextPlain_props (db : UidDb) (payload : String)
    (h : DbClean db.map) :
    DbClean (importUidDbTextPlain db payload).1.map ∧
    ∀ k v, v ∈ lookupList (importUidDbTextPlain db payload).1.map k →
      v ∈ lookupList db.map k ∨ getUidShortForUuid8 v = k := by
  unfold importUidDbTextPlain
  by_cases h0 : (jsTrim payload).length = 0
  · rw [if_pos h0]
    exact ⟨h, fun k v hv => Or.inl hv⟩
  · rw [if_neg h0]
    by_cases h1 : (tryCollectImportedPairsFromLines (jsTrim payload)).length = 0
    · rw [if_pos h1]
      exact ⟨h, fun k v hv => Or.inl hv⟩
    · rw [if_neg h1]
      obtain ⟨hf1, hf2⟩ := importProcessPairs_props db
        (tryCollectImportedPairsFromLines (jsTrim payload)) h
      constructor
      · intro k
        exact recompute_DbClean
          (importProcessPairs db (tryCollectImportedPairsFromLines (jsTrim payload))).1
          hf1 k
      · intro k v hv
        exact hf2 k v (recompute_lookup_sub
          (importProcessPairs db (tryCollectImportedPairsFromLines (jsTrim payload))).1
          hf1 k v hv)

theorem getUidShort_zeros : getUidShortForUuid8 "AAAAAAAAAAA=" = "EtO" := by
  decide

/-- C3 (amended): the database operations maintain the token-set part of
the invariant — after loading a persisted database, adding a pair, merging
discovered pairs or importing a payload, every per-ShortID token list is
duplicate-free and contains no empty (or whitespace-carrying) strings — and
the importer maintains the recomputation-integrity part: every token
reachable after an import was either already stored under that ShortID or
recomputes via `getUidShortForUuid8` to its key.  Loading does not
re-verify recomputation integrity for persisted pairs (see the
counterexample). -/
theorem db_operations_token_set_invariants
    (rawMap : List (String × RawVal)) (meta0 : UidMeta) (db : UidDb)
    (uid3 uuid8 payload : String) (mpairs : List (String × String))
    (h : DbClean db.map) :
    DbClean (loadUidDbFromParsed rawMap meta0).map ∧
    DbClean (addUidPair db uid3 uuid8).2.map ∧
    DbClean (mergeUidPairs db mpairs).map ∧
    DbClean (importUidDbTextPlain db payload).1.map ∧
    (∀ k v, v ∈ lookupList (importUidDbTextPlain db payload).1.map k →
      v ∈ lookupList db.map k ∨ getUidShortForUuid8 v = k) := by
  obtain ⟨h1, h2⟩ := importUidDbTextPlain_props db payload h
  exact ⟨loadUidDbFromParsed_DbClean rawMap meta0, addUidPair_DbClean db uid3 uuid8 h,
    mergeUidPairs_DbClean mpairs db h, h1, h2⟩

theorem db_operations_token_set_invariants_witness :
    DbClean (loadUidDbFromParsed [("abc", RawVal.arr ["AAAAAAAAAAA="])] {}).map ∧
    DbClean (addUidPair defaultUidDb "abc" "AAAAAAAAAAA=").2.map ∧
    DbClean (mergeUidPairs defaultUidDb [("abc", "AAAAAAAAAAA=")]).map ∧
    DbClean (importUidDbTextPlain defaultUidDb "abc: AAAAAAAAAAA=").1.map ∧
    (∀ k v, v ∈ lookupList (importUidDbTextPlain defaultUidDb "abc: AAAAAAAAAAA=").1.map k →
      v ∈ lookupList defaultUidDb.map k ∨ getUidShortForUuid8 v = k) :=
  db_operations_token_set_invariants [("abc", RawVal.arr ["AAAAAAAAAAA="])] {}
    defaultUidDb "abc" "AAAAAAAAAAA=" "abc: AAAAAAAAAAA=" [("abc", "AAAAAAAAAAA=")]
    (fun _ => CleanTokens_nil)

/-- C3 counterexample: loading a persisted map with the entry
`"abc" ↦ ["AAAAAAAAAAA="]` keeps the pair under the key `"abc"`, although
the stored token recomputes to the ShortID `"EtO"`: the loader never
re-derives keys from tokens, so the recomputation-integrity part of the
claim fails on the load path. -/
theorem loadUidDb_keeps_unverified_pair :
    lookupList (loadUidDbFromParsed [("abc", RawVal.arr ["AAAAAAAAAAA="])] {}).map "abc"
      = ["AAAAAAAAAAA="] ∧
    getUidShortForUuid8 "AAAAAAAAAAA=" = "EtO" ∧
    getUidShortForUuid8 "AAAAAAAAAAA=" ≠ "abc" := by
  refine ⟨?_, getUidShort_zeros, ?_⟩
  · unfold loadUidDbFromParsed
    exact Eq.trans (recompute_lookup_of_clean
      { map := cleanUidDbMap [("abc", RawVal.arr ["AAAAAAAAAAA="])], meta := {} }
      (fun k => cleanUidDbMap_DbClean [("abc", RawVal.arr ["AAAAAAAAAAA="])] k) "abc")
      (by decide)
  · rw [getUidShort_zeros]
    decide

/-- C4: each parsed import record is classified exactly as claimed: a token
failing the decoder counts only `invalid` and leaves the database
untouched; a decodable token whose recomputed ShortID differs from the
stated one counts only `mismatch` and leaves the database untouched;
otherwise the pair goes through `addUidPair`, which reports `added` exactly
for a genuinely new well-formed pair and `duplicate` otherwise.  On the
claim's example, importing the single line `"abc: AAAAAAAAAAA="` (whose
token recomputes to `"EtO"`, not `"abc"`) yields `added = 0`,
`mismatch = 1` out of one parsed record. -/
theorem uid_import_record_classification (db : UidDb) (c : ImportCounts)
    (p : String × String) :
    ((normalizeUuidOrUid p.2).valid = false →
      processImportPair (db, c) p = (db, { c with invalid := c.invalid + 1 })) ∧
    ((normalizeUuidOrUid p.2).valid = true →
      getUidShortForUuid8 (normalizeUuidOrUid p.2).uuid8 ≠ p.1 →
      processImportPair (db, c) p = (db, { c with mismatch := c.mismatch + 1 })) ∧
    ((normalizeUuidOrUid p.2).valid = true →
      getUidShortForUuid8 (normalizeUuidOrUid p.2).uuid8 = p.1 →
      processImportPair (db, c) p
        = ((addUidPair db p.1 (normalizeUuidOrUid p.2).uuid8).2,
           if (addUidPair db p.1 (normalizeUuidOrUid p.2).uuid8).1 then
             { c with added := c.added + 1 }
           else { c with duplicate := c.duplicate + 1 })) ∧
    ((addUidPair db p.1 (normalizeUuidOrUid p.2).uuid8).1 = true ↔
      ((normalizeUidKey p.1).length = 3 ∧
        (sanitizeIdText (normalizeUuidOrUid p.2).uuid8).length ≠ 0 ∧
        sanitizeIdText (normalizeUuidOrUid p.2).uuid8
          ∉ lookupList db.map (normalizeUidKey p.1))) ∧
    ((importUidDbTextPlain db "abc: AAAAAAAAAAA=").2.added = 0 ∧
     (importUidDbTextPlain db "abc: AAAAAAAAAAA=").2.mismatch = 1 ∧
     (importUidDbTextPlain db "abc: AAAAAAAAAAA=").2.totalParsed = 1) := by
  have hval : (normalizeUuidOrUid "AAAAAAAAAAA=").valid = true := by decide
  have hsid : getUidShortForUuid8 "AAAAAAAAAAA=" ≠ "abc" := by
    rw [getUidShort_zeros]
    decide
  have hstep : processImportPair (db, ({} : ImportCounts)) ("abc", "AAAAAAAAAAA=")
      = (db, { mismatch := 1 }) :=
    (processImportPair_mismatch db {} ("abc", "AAAAAAAAAAA=") hval hsid).trans rfl
  have hcol : tryCollectImportedPairsFromLines (jsTrim "abc: AAAAAAAAAAA=")
      = [("abc", "AAAAAAAAAAA=")] := by decide
  have hfold : importProcessPairs db [("abc", "AAAAAAAAAAA=")]
      = (db, { mismatch := 1 }) := by
    show List.foldl processImportPair (db, {}) [("abc", "AAAAAAAAAAA=")] = _
    rw [List.foldl_cons, hstep, List.foldl_nil]
  have himp : importUidDbTextPlain db "abc: AAAAAAAAAAA="
      = (recomputeUidDbMeta ((db, ({ mismatch := 1 } : ImportCounts)).1),
         { recognized := true, added := 0, duplicate := 0, invalid := 0,
           mismatch := 1, totalParsed := 1 }) := by
    unfold importUidDbTextPlain
    rw [if_neg (by decide), hcol, if_neg (by decide), hfold]
    rfl
  refine ⟨fun hv => processImportPair_invalid db c p hv,
    fun hv hs => processImportPair_mismatch db c p hv hs,
    fun hv hs => processImportPair_matched db c p hv hs, ?_, ?_, ?_, ?_⟩
  · by_cases hok : (normalizeUidKey p.1).length = 3 ∧
        (sanitizeIdText (normalizeUuidOrUid p.2).uuid8).length ≠ 0 ∧
        sanitizeIdText (normalizeUuidOrUid p.2).uuid8
          ∉ lookupList db.map (normalizeUidKey p.1)
    · rw [addUidPair_ok db p.1 _ hok.1 hok.2.1 hok.2.2]
      exact iff_of_true rfl hok
    · rw [addUidPair_noop db p.1 _ hok]
      exact iff_of_false (by simp) hok
  · rw [himp]
  · rw [himp]
  · rw [himp]

theorem uid_import_record_classification_witness :
    processImportPair (defaultUidDb, ({} : ImportCounts)) ("abc", "???")
      = (defaultUidDb, ({ invalid := 1 } : ImportCounts)) ∧
    (importUidDbTextPlain defaultUidDb "abc: AAAAAAAAAAA=").2.mismatch = 1 :=
  ⟨(uid_import_record_classification defaultUidDb {} ("abc", "???")).1 (by decide),
   (uid_import_record_classification defaultUidDb {} ("abc", "???")).2.2.2.2.2.1⟩

end UuidManager
